import Mathlib

/-!
# async_server_c_demo: the connection table and the event loop of `main.c`

A shallow embedding of `src/main.c` together with the properties of the
connection table, of the read/broadcast phase and of the tick timer.

Conventions of the embedding.

* C `int`, `long`, `time_t` and `ssize_t` values are integers (`Int`).  The
  arithmetic of `timespec_sub`, a function over arbitrary `struct timespec`
  arguments, is reduced to the 64 bits of `time_t` and `long`, and the casts
  `(int) current_time.tv_sec` and `(int) current_time.tv_nsec` to the 32 bits of
  `int`.  The increments of the deadline and of the tick counter inside the loop
  are not reduced: they leave the range only with a monotonic clock within
  seconds of `2^63` or after `2^31` ticks.
* The `int` array allocated behind `application_t` is a list of cells,
  `connection_fds`; `connection_count` says how many of its leading cells are
  live.  Reading a cell outside the array yields `0`, writing outside is
  ignored; the theorems only speak about well-formed tables, where neither
  happens.
* System calls are answered by an environment: the `n`-th call of each kind
  gets the `n`-th answer of the corresponding stream.  What the program does to
  the outside world (`close`, `read`, `write`, `writev`, a line on `stderr`) is
  appended to a trace.
* `while` loops whose number of rounds depends on the environment or on the
  clock take a budget of rounds; `none` means that the budget ran out.
-/

namespace AsyncServer

/-! ## Constants -/

/-- The period of the tick, `#define SPAM_PERIOD_SEC 5`. -/
def SPAM_PERIOD_SEC : Int := 5

/-- The value of `EAGAIN` of `<errno.h>` (Linux). -/
def EAGAIN : Int := 11

/-- The value of `EWOULDBLOCK` of `<errno.h>` (Linux, where it equals `EAGAIN`). -/
def EWOULDBLOCK : Int := 11

/-! ## `struct timespec` -/

/-- The C `struct timespec`. -/
structure timespec where
  tv_sec : Int
  tv_nsec : Int
deriving DecidableEq, Repr

/-- A timespec is normalized when `0 <= tv_nsec < 1000000000`. -/
def timespec.normalized (t : timespec) : Prop :=
  0 ≤ t.tv_nsec ∧ t.tv_nsec < 1000000000

instance (t : timespec) : Decidable t.normalized := by
  unfold timespec.normalized; infer_instance

/-- The value of a timespec in nanoseconds. -/
def timespec.nanos (t : timespec) : Int :=
  t.tv_sec * 1000000000 + t.tv_nsec

/-- The comparison `timespec_gt (time1, time2)`: `time1 > time2`. -/
def timespec_gt (time1 time2 : timespec) : Bool :=
  decide (time1.tv_sec > time2.tv_sec) ||
    (decide (time1.tv_sec = time2.tv_sec) && decide (time1.tv_nsec > time2.tv_nsec))

/-- The reduction of an integer into the range of a 64-bit signed type (`long`,
`time_t`): what the machine subtraction and addition leave. -/
def to_long (x : Int) : Int :=
  (x + 9223372036854775808) % 18446744073709551616 - 9223372036854775808

/-- The subtraction `timespec_sub (&dtime, time1, time2)`: the value stored in
`dtime`.  Every subtraction and addition is one on 64-bit `time_t` or `long`. -/
def timespec_sub (time1 time2 : timespec) : timespec :=
  if time1.tv_sec > time2.tv_sec then
    if time1.tv_nsec ≥ time2.tv_nsec then
      { tv_sec := to_long (time1.tv_sec - time2.tv_sec)
        tv_nsec := to_long (time1.tv_nsec - time2.tv_nsec) }
    else
      { tv_sec := to_long (to_long (time1.tv_sec - time2.tv_sec) - 1)
        tv_nsec := to_long (to_long (time1.tv_nsec + 1000000000) - time2.tv_nsec) }
  else if time1.tv_sec = time2.tv_sec ∧ time1.tv_nsec ≥ time2.tv_nsec then
    { tv_sec := to_long (time1.tv_sec - time2.tv_sec)
      tv_nsec := to_long (time1.tv_nsec - time2.tv_nsec) }
  else
    { tv_sec := 0, tv_nsec := 0 }

/-- The catch-up loop of the timer phase,
`while (timespec_gt (&current_time, &messaging_time)) messaging_time.tv_sec += SPAM_PERIOD_SEC;`,
with a budget of rounds; the result is the final `messaging_time`. -/
def catch_up : Nat → timespec → timespec → Option timespec
  | 0, _, _ => none
  | fuel + 1, current_time, messaging_time =>
    if timespec_gt current_time messaging_time then
      catch_up fuel current_time
        { messaging_time with tv_sec := messaging_time.tv_sec + SPAM_PERIOD_SEC }
    else
      some messaging_time

/-! ## Formatting -/

/-- The conversion `(int) x` of a wider signed value: reduction modulo `2^32`
into the range of `int`. -/
def to_int (x : Int) : Int :=
  (x + 2147483648) % 4294967296 - 2147483648

/-- The characters of `printf ("%d", n)`. -/
def fmt_d (n : Int) : List Char :=
  if n < 0 then '-' :: Nat.toDigits 10 n.natAbs else Nat.toDigits 10 n.natAbs

/-- The characters of `printf ("%09d", n)`: at least nine characters, padded with zeros after the
sign. -/
def fmt_09d (n : Int) : List Char :=
  let digits := Nat.toDigits 10 n.natAbs
  if n < 0 then
    '-' :: (List.replicate (8 - digits.length) '0' ++ digits)
  else
    List.replicate (9 - digits.length) '0' ++ digits

/-- The text of
`sprintf (prefix, "Message from socket %d at %d.%09d: ", fd, (int) current_time.tv_sec, (int) current_time.tv_nsec)`. -/
def message_header (fd : Int) (current_time : timespec) : List Char :=
  "Message from socket ".toList ++ fmt_d fd ++ " at ".toList ++
    fmt_d (to_int current_time.tv_sec) ++ ['.'] ++
    fmt_09d (to_int current_time.tv_nsec) ++ ": ".toList

/-- The three `iovec` parts handed to `writev`, concatenated: the prefix, the
`len` bytes just read, and `"\n"`. -/
def message_frame (fd : Int) (current_time : timespec) (buffer : List Char) : List Char :=
  message_header fd current_time ++ buffer ++ ['\n']

/-- The text of `sprintf (message, "Tick %d\n", tick_n)`. -/
def tick_message (tick_n : Int) : List Char :=
  "Tick ".toList ++ fmt_d tick_n ++ ['\n']

/-! ## The connection table -/

/-- The C `application_t`.  `connection_fds` is the array of `max_connections` cells
allocated right behind the structure. -/
structure application_t where
  listener_fd : Int
  max_connections : Int
  connection_count : Int
  connection_fds : List Int
deriving DecidableEq, Repr

/-- The connection sequence: the first `connection_count` cells of the array. -/
def application_t.connections (s : application_t) : List Int :=
  s.connection_fds.take s.connection_count.toNat

/-- A well-formed table: the array has `max_connections` cells and
`0 <= connection_count <= max_connections`. -/
def application_t.wf (s : application_t) : Prop :=
  0 ≤ s.connection_count ∧ s.connection_count ≤ s.max_connections ∧
    s.connection_fds.length = s.max_connections.toNat

instance (s : application_t) : Decidable s.wf := by
  unfold application_t.wf; infer_instance

/-! ## The outside world -/

/-- The diagnostic lines the program prints on `stderr` (their wording left
out). -/
inductive LogLine where
  | listening (port : Int)
  | create_failed (errno : Int)
  | limit_reached (max_connections : Int)
  | nonblock_failed (errno : Int)
  | incoming (ip : Nat) (port : Nat)
  | accept_failed (errno : Int)
  | gettime_failed (errno : Int)
  | write_failed (errno : Int)
  | read_failed (errno : Int)
  | pselect_failed (errno : Int)
deriving DecidableEq, Repr

/-- What the program does to the outside world. -/
inductive Event where
  | close (fd : Int)
  | read (fd : Int)
  | writev (fd : Int) (data : List Char)
  | write (fd : Int) (data : List Char)
  | pselect (nfds : Int) (readfds : List Int) (timeout : timespec)
  | stderr (line : LogLine)
deriving DecidableEq, Repr

/-- The answer of a system call that returns a status: the returned value and
the `errno` it leaves. -/
structure SysRet where
  ret : Int
  errno : Int
deriving DecidableEq, Repr

/-- The answer of `clock_gettime`. -/
inductive ClockResult where
  | ok (now : timespec)
  | fail (errno : Int)
deriving DecidableEq, Repr

/-- The answer of `read`: the bytes stored into the buffer (none at all at end
of file), or a failure. -/
inductive ReadResult where
  | bytes (data : List Char)
  | fail (errno : Int)
deriving DecidableEq, Repr

/-- The value `read` returns. -/
def ReadResult.len : ReadResult → Int
  | .bytes data => data.length
  | .fail _ => -1

/-- The bytes in `buffer` after a `read`. -/
def ReadResult.buffer : ReadResult → List Char
  | .bytes data => data
  | .fail _ => []

/-- The value of `errno` after a `read`; the program consults it only after a
failure. -/
def ReadResult.errno : ReadResult → Int
  | .bytes _ => 0
  | .fail errno => errno

/-- The answer of `accept`: the returned descriptor (or `-1`), the peer address
stored into `addr`, and `errno`. -/
structure AcceptResult where
  ret : Int
  ip : Nat
  port : Nat
  errno : Int
deriving DecidableEq, Repr

/-- The answer of `pselect`: the returned count, the descriptors left in the
set, and `errno`. -/
structure PselectResult where
  ret : Int
  readfds : List Int
  errno : Int
deriving DecidableEq, Repr

/-- The environment: the `n`-th call of each kind gets the `n`-th answer.
`write` answers both `write` and `writev`; `fcntl` answers the `F_SETFL` call
that switches a descriptor to non-blocking mode. -/
structure Env where
  clock_gettime : Nat → ClockResult
  pselect : Nat → PselectResult
  accept : Nat → AcceptResult
  fcntl : Nat → SysRet
  read : Nat → ReadResult
  write : Nat → SysRet

/-- The program state that the table operations and the I/O phases work on:
the table, the trace so far, and how many calls of each kind were made. -/
structure Sys where
  app : application_t
  trace : List Event
  n_clock_gettime : Nat
  n_pselect : Nat
  n_accept : Nat
  n_fcntl : Nat
  n_read : Nat
  n_write : Nat
deriving DecidableEq, Repr

/-- The test `FD_ISSET (fd, &fds)`. -/
def FD_ISSET (fd : Int) (fds : List Int) : Bool :=
  fds.contains fd

/-! ## Table operations -/

/-- The table returned by a successful `application_create`: `listener_fd` is
the listening socket, `memory` the (indeterminate) initial contents of the
freshly allocated cells. -/
def application_create (listener_fd : Int) (max_connections : Int) (memory : Nat → Int) :
    application_t :=
  { listener_fd := listener_fd
    max_connections := max_connections
    connection_count := 0
    connection_fds := (List.range max_connections.toNat).map memory }

/-- The C function `application_add_connection (s, connection_fd)`. -/
def application_add_connection (env : Env) (w : Sys) (connection_fd : Int) : Sys :=
  let s := w.app
  if s.connection_count = s.max_connections then
    { w with
      trace := w.trace ++ [Event.stderr (LogLine.limit_reached s.max_connections),
                           Event.close connection_fd] }
  else
    let r := env.fcntl w.n_fcntl
    let w := { w with n_fcntl := w.n_fcntl + 1 }
    if r.ret = -1 then
      { w with
        trace := w.trace ++ [Event.stderr (LogLine.nonblock_failed r.errno),
                             Event.close connection_fd] }
    else
      { w with
        app := { s with
          connection_fds := s.connection_fds.set s.connection_count.toNat connection_fd
          connection_count := s.connection_count + 1 } }

/-- The effect of `memmove (mem + dst, mem + src, n cells)` on an array of
cells. -/
def memmove (mem : List Int) (dst src n : Nat) : List Int :=
  mem.take dst ++ ((mem.drop src).take n ++ mem.drop (dst + n))

/-- The C function `application_remove_connection (s, connection_index)`. -/
def application_remove_connection (w : Sys) (connection_index : Int) : Sys :=
  let s := w.app
  { w with
    trace := w.trace ++ [Event.close (s.connection_fds.getD connection_index.toNat 0)]
    app := { s with
      connection_fds :=
        memmove s.connection_fds connection_index.toNat (connection_index + 1).toNat
          (s.connection_count - connection_index - 1).toNat
      connection_count := s.connection_count - 1 } }

/-- A call on the table. -/
inductive TableOp where
  | add (connection_fd : Int)
  | remove (connection_index : Int)
deriving DecidableEq, Repr

/-- Runs a sequence of calls on the table.  A removal is only ever called with
`0 <= connection_index < connection_count`; a sequence that breaks this has no
run. -/
def run_table_ops (env : Env) : List TableOp → Sys → Option Sys
  | [], w => some w
  | TableOp.add connection_fd :: ops, w =>
    run_table_ops env ops (application_add_connection env w connection_fd)
  | TableOp.remove connection_index :: ops, w =>
    if 0 ≤ connection_index ∧ connection_index < w.app.connection_count then
      run_table_ops env ops (application_remove_connection w connection_index)
    else
      none

/-- A state with the given table, an empty trace and no calls made. -/
def Sys.init (s : application_t) : Sys :=
  { app := s, trace := [], n_clock_gettime := 0, n_pselect := 0, n_accept := 0,
    n_fcntl := 0, n_read := 0, n_write := 0 }

/-! ## Fan-out -/

/-- One round of a fan-out loop: the call `writev`/`write` on `fd` (given as the
event it leaves), and the line on `stderr` if it returns a negative value. -/
def write_one (env : Env) (call : Event) (w : Sys) : Sys :=
  let r := env.write w.n_write
  { w with
    n_write := w.n_write + 1
    trace := w.trace ++ (if r.ret < 0 then [call, Event.stderr (LogLine.write_failed r.errno)]
                         else [call]) }

/-- The message fan-out
`for (j = 0; j < s->connection_count; ++j) if (writev (s->connection_fds[j], iov, 3) < 0) fprintf (...)`. -/
def broadcast_message (env : Env) (iov : List Char) (w : Sys) : Sys :=
  (List.range w.app.connection_count.toNat).foldl
    (fun w j => write_one env (Event.writev (w.app.connection_fds.getD j 0) iov) w) w

/-- The tick fan-out
`for (j = 0; j < s->connection_count; ++j) if (write (s->connection_fds[j], message, strlen (message)) < 0) fprintf (...)`. -/
def broadcast_tick (env : Env) (message : List Char) (w : Sys) : Sys :=
  (List.range w.app.connection_count.toNat).foldl
    (fun w j => write_one env (Event.write (w.app.connection_fds.getD j 0) message) w) w

/-- The `write` and `writev` calls of a trace, in order. -/
def writes_of (trace : List Event) : List Event :=
  trace.filter fun e =>
    match e with
    | Event.writev _ _ => true
    | Event.write _ _ => true
    | _ => false

/-- The descriptors of the `read` calls of a trace, in order. -/
def reads_of (trace : List Event) : List Int :=
  trace.filterMap fun e =>
    match e with
    | Event.read fd => some fd
    | _ => none

/-- The descriptors that a trace writes to, in order. -/
def written_fds (trace : List Event) : List Int :=
  trace.filterMap fun e =>
    match e with
    | Event.writev fd _ => some fd
    | Event.write fd _ => some fd
    | _ => none

/-! ## The event loop -/

/-- How a piece of `application_main_loop` ends: control goes on with a value,
or the function executes `return code`. -/
inductive Flow (α : Type) where
  | next (a : α)
  | ret (code : Int) (w : Sys)
deriving DecidableEq, Repr

/-- The accept loop
`while ((connection_fd = accept (...)) >= 0) { fprintf (...); application_add_connection (s, connection_fd); }`
followed by the test of `errno`. -/
def accept_phase (env : Env) : Nat → Sys → Option (Flow Sys)
  | 0, _ => none
  | fuel + 1, w =>
    let r := env.accept w.n_accept
    let w := { w with n_accept := w.n_accept + 1 }
    if r.ret ≥ 0 then
      let w := { w with trace := w.trace ++ [Event.stderr (LogLine.incoming r.ip r.port)] }
      accept_phase env fuel (application_add_connection env w r.ret)
    else if r.errno ≠ EAGAIN ∧ r.errno ≠ EWOULDBLOCK then
      some (Flow.ret 1
        { w with trace := w.trace ++ [Event.stderr (LogLine.accept_failed r.errno)] })
    else
      some (Flow.next w)

/-- The read loop of one connection,
`while ((len = read (fd, buffer, sizeof (buffer))) > 0) { clock_gettime; sprintf; writev to all }`.
It yields the answer of the last `read`, the one with `len <= 0`. -/
def read_loop (env : Env) (fd : Int) : Nat → Sys → Option (Flow (ReadResult × Sys))
  | 0, _ => none
  | fuel + 1, w =>
    let r := env.read w.n_read
    let w := { w with n_read := w.n_read + 1, trace := w.trace ++ [Event.read fd] }
    if r.len > 0 then
      let c := env.clock_gettime w.n_clock_gettime
      let w := { w with n_clock_gettime := w.n_clock_gettime + 1 }
      match c with
      | ClockResult.fail errno =>
        some (Flow.ret 1
          { w with trace := w.trace ++ [Event.stderr (LogLine.gettime_failed errno)] })
      | ClockResult.ok current_time =>
        read_loop env fd fuel
          (broadcast_message env (message_frame fd current_time r.buffer) w)
    else
      some (Flow.next (r, w))

/-- The loop over the established connections,
`for (i = 0; i < connection_count;) { ... }`, from the values `i` and
`connection_count` of its local variables. -/
def read_phase (env : Env) (readfds : List Int) : Nat → Int → Int → Sys → Option (Flow Sys)
  | 0, _, _, _ => none
  | fuel + 1, i, connection_count, w =>
    if i < connection_count then
      let fd := w.app.connection_fds.getD i.toNat 0
      if FD_ISSET fd readfds then
        match read_loop env fd fuel w with
        | none => none
        | some (Flow.ret code w) => some (Flow.ret code w)
        | some (Flow.next (r, w)) =>
          if r.len = 0 then
            read_phase env readfds fuel i (connection_count - 1)
              (application_remove_connection w i)
          else if r.errno ≠ EAGAIN ∧ r.errno ≠ EWOULDBLOCK then
            read_phase env readfds fuel i (connection_count - 1)
              (application_remove_connection
                { w with trace := w.trace ++ [Event.stderr (LogLine.read_failed r.errno)] } i)
          else
            read_phase env readfds fuel (i + 1) connection_count w
      else
        read_phase env readfds fuel (i + 1) connection_count w
    else
      some (Flow.next w)

/-- The branch `if (pselect_ret > 0) { ... }`: the snapshot of
`connection_count`, the accept phase if the listener is ready, then the read
phase. -/
def events_phase (env : Env) (readfds : List Int) (fuel : Nat) (w : Sys) : Option (Flow Sys) :=
  let connection_count := w.app.connection_count
  if FD_ISSET w.app.listener_fd readfds then
    match accept_phase env fuel w with
    | none => none
    | some (Flow.ret code w) => some (Flow.ret code w)
    | some (Flow.next w) => read_phase env readfds fuel 0 connection_count w
  else
    read_phase env readfds fuel 0 connection_count w

/-- The variables of `application_main_loop` that live across iterations. -/
structure LoopState where
  sys : Sys
  messaging_time : timespec
  tick_n : Int
deriving DecidableEq, Repr

/-- The timer phase from the sampled `current_time` on:
`if (timespec_gt (&current_time, &messaging_time)) { sprintf; ++tick_n; write to all; catch up }`.
Next to the new state it yields the text put into `message` when the branch is
taken. -/
def timer_phase (env : Env) (fuel : Nat) (current_time : timespec) (st : LoopState) :
    Option (LoopState × Option (List Char)) :=
  if timespec_gt current_time st.messaging_time then
    let message := tick_message st.tick_n
    let tick_n := st.tick_n + 1
    let w := broadcast_tick env message st.sys
    match catch_up fuel current_time st.messaging_time with
    | none => none
    | some messaging_time =>
      some ({ sys := w, messaging_time := messaging_time, tick_n := tick_n }, some message)
  else
    some (st, none)

/-- The largest descriptor put into the set, `top_fd`. -/
def top_fd (s : application_t) : Int :=
  s.connections.foldl (fun top fd => if fd > top then fd else top) s.listener_fd

/-- One iteration of `while (1) { ... }`.  Next to the outcome it yields the
tick text of this iteration, if the timer fired. -/
def main_loop_iteration (env : Env) (fuel : Nat) (st : LoopState) :
    Option (Flow LoopState × Option (List Char)) :=
  let w := st.sys
  let w1 := { w with n_clock_gettime := w.n_clock_gettime + 1 }
  match env.clock_gettime w.n_clock_gettime with
  | ClockResult.fail errno =>
    some (Flow.ret 1
      { w1 with trace := w1.trace ++ [Event.stderr (LogLine.gettime_failed errno)] }, none)
  | ClockResult.ok current_time =>
    let timeout := timespec_sub st.messaging_time current_time
    let p := env.pselect w1.n_pselect
    let w2 := { w1 with
      n_pselect := w1.n_pselect + 1
      trace := w1.trace ++
        [Event.pselect (top_fd w1.app + 1) (w1.app.listener_fd :: w1.app.connections) timeout] }
    let handled : Option (Flow Sys) :=
      if p.ret > 0 then
        events_phase env p.readfds fuel w2
      else if p.ret = -1 then
        some (Flow.ret 1
          { w2 with trace := w2.trace ++ [Event.stderr (LogLine.pselect_failed p.errno)] })
      else
        some (Flow.next w2)
    match handled with
    | none => none
    | some (Flow.ret code w) => some (Flow.ret code w, none)
    | some (Flow.next w3) =>
      let w4 := { w3 with n_clock_gettime := w3.n_clock_gettime + 1 }
      match env.clock_gettime w3.n_clock_gettime with
      | ClockResult.fail errno =>
        some (Flow.ret 1
          { w4 with trace := w4.trace ++ [Event.stderr (LogLine.gettime_failed errno)] }, none)
      | ClockResult.ok current_time =>
        match timer_phase env fuel current_time
            { sys := w4, messaging_time := st.messaging_time, tick_n := st.tick_n } with
        | none => none
        | some (st, message) => some (Flow.next st, message)

/-- The first `rounds` iterations of the loop, from the state `st`.  Next to the
outcome it yields the tick texts of the firings so far, oldest first. -/
def main_loop_rounds (env : Env) (fuel : Nat) :
    Nat → LoopState → Option (Flow LoopState × List (List Char))
  | 0, st => some (Flow.next st, [])
  | rounds + 1, st =>
    match main_loop_iteration env fuel st with
    | none => none
    | some (Flow.ret code w, _) => some (Flow.ret code w, [])
    | some (Flow.next st, message) =>
      match main_loop_rounds env fuel rounds st with
      | none => none
      | some (flow, messages) => some (flow, message.toList ++ messages)

/-- The function `application_main_loop (s)`, observed for `rounds` iterations
of its endless loop. -/
def application_main_loop (env : Env) (fuel : Nat) (rounds : Nat) (w : Sys) :
    Option (Flow LoopState × List (List Char)) :=
  let w1 := { w with n_clock_gettime := w.n_clock_gettime + 1 }
  match env.clock_gettime w.n_clock_gettime with
  | ClockResult.fail errno =>
    some (Flow.ret 1
      { w1 with trace := w1.trace ++ [Event.stderr (LogLine.gettime_failed errno)] }, [])
  | ClockResult.ok initial_time =>
    main_loop_rounds env fuel rounds
      { sys := w1
        messaging_time := { initial_time with tv_sec := initial_time.tv_sec + 1 }
        tick_n := 1 }

/-! ## Descriptions used in the statements -/

/-- What a fan-out leaves in the trace when it issues the calls `calls` in this
order, the first of them being the `n`-th write of the run: each call, followed
by a line on `stderr` if the environment makes it fail. -/
def fanout_events (env : Env) : Nat → List Event → List Event
  | _, [] => []
  | n, call :: calls =>
    (if (env.write n).ret < 0 then
        [call, Event.stderr (LogLine.write_failed (env.write n).errno)]
      else [call]) ++ fanout_events env (n + 1) calls

/-- The reads of one connection in one pass, as the environment answers them:
the chunks of data, then the answer that ends the loop. -/
abbrev ReadScript := List (List Char) × ReadResult

/-- The answers of the environment to the consecutive `read` calls of a pass that
follows the given scripts, one script for each connection read. -/
def script_answers : List ReadScript → List ReadResult
  | [] => []
  | (chunks, last) :: scripts =>
    chunks.map ReadResult.bytes ++ last :: script_answers scripts

/-- The environment answers the `read` calls from the `n`-th on with
`answers`. -/
def Env.answers_reads (env : Env) (n : Nat) (answers : List ReadResult) : Prop :=
  ∀ k : Nat, k < answers.length → answers[k]? = some (env.read (n + k))

instance (env : Env) (n : Nat) (answers : List ReadResult) :
    Decidable (env.answers_reads n answers) := by
  unfold Env.answers_reads; infer_instance

/-- A well-formed script: every chunk has at least one byte, and the last answer
is a `read` that returns `0` or fails. -/
def ReadScript.valid (script : ReadScript) : Prop :=
  (∀ chunk ∈ script.1, chunk ≠ []) ∧ script.2.len ≤ 0

instance (script : ReadScript) : Decidable script.valid := by
  unfold ReadScript.valid; infer_instance

/-- Whether the last answer of a read sequence ends the connection: a 0-byte
read, or an error other than would-block. -/
def ReadResult.closes (r : ReadResult) : Bool :=
  decide (r.len = 0) || (decide (r.errno ≠ EAGAIN) && decide (r.errno ≠ EWOULDBLOCK))

/-- The snapshot connections that remain after the read phase, in their order:
those not marked ready, and those whose read sequence did not end the
connection.  The scripts are those of the ready connections, in table order. -/
def survivors (readfds : List Int) : List Int → List ReadScript → List Int
  | [], _ => []
  | fd :: snapshot, scripts =>
    if FD_ISSET fd readfds then
      match scripts with
      | [] => fd :: survivors readfds snapshot []
      | script :: scripts =>
        if script.2.closes then survivors readfds snapshot scripts
        else fd :: survivors readfds snapshot scripts
    else fd :: survivors readfds snapshot scripts

/-- The descriptors of the `read` calls that the read phase is to make, in order:
for each snapshot connection marked ready, in table order, one run of reads, as
long as its script. -/
def expected_reads (readfds : List Int) : List Int → List ReadScript → List Int
  | [], _ => []
  | fd :: snapshot, scripts =>
    if FD_ISSET fd readfds then
      match scripts with
      | [] => expected_reads readfds snapshot []
      | script :: scripts =>
        List.replicate (script.1.length + 1) fd ++ expected_reads readfds snapshot scripts
    else expected_reads readfds snapshot scripts

/-! ## Example environments and states -/

/-- An environment in which nothing happens: the clock stands at zero,
`pselect` times out, `accept` and `read` would block, every other call
succeeds. -/
def Env.quiet : Env :=
  { clock_gettime := fun _ => ClockResult.ok { tv_sec := 0, tv_nsec := 0 }
    pselect := fun _ => { ret := 0, readfds := [], errno := 0 }
    accept := fun _ => { ret := -1, ip := 0, port := 0, errno := EAGAIN }
    fcntl := fun _ => { ret := 0, errno := 0 }
    read := fun _ => ReadResult.fail EAGAIN
    write := fun _ => { ret := 1, errno := 0 } }

/-- A table of capacity four with listener 3 and the connections 4, 5, 6. -/
def demo_table : application_t :=
  { listener_fd := 3, max_connections := 4, connection_count := 3,
    connection_fds := [4, 5, 6, 0] }

/-- A loop state over the example table: deadline at time zero, first tick
pending. -/
def demo_loop_state : LoopState :=
  { sys := Sys.init demo_table, messaging_time := { tv_sec := 0, tv_nsec := 0 }, tick_n := 1 }

/-- An environment like `Env.quiet` whose clock advances by three seconds with
every reading. -/
def Env.ticking : Env :=
  { Env.quiet with clock_gettime := fun n => ClockResult.ok { tv_sec := 3 * n, tv_nsec := 0 } }

/-- An environment with one pending connection (descriptor 7) and data on two
connections: `pselect` reports the listener and the descriptors 4 and 6; the
first connection read yields `"hi"` and then would block, the second one is at
end of file. -/
def Env.busy : Env :=
  { Env.quiet with
    pselect := fun _ => { ret := 3, readfds := [3, 4, 6], errno := 0 }
    accept := fun n =>
      if n = 0 then { ret := 7, ip := 2130706433, port := 40000, errno := 0 }
      else { ret := -1, ip := 0, port := 0, errno := EAGAIN }
    read := fun n =>
      if n = 0 then ReadResult.bytes "hi".toList
      else if n = 2 then ReadResult.bytes []
      else ReadResult.fail EAGAIN }

/-- An environment in which a peer never stops sending: every `read` yields one
byte.  `pselect` reports descriptor 4; no call fails. -/
def Env.flood : Env :=
  { Env.quiet with
    pselect := fun _ => { ret := 1, readfds := [4], errno := 0 }
    read := fun _ => ReadResult.bytes ['x'] }

/-- An environment in which connection 5 sends `"hello\n"` once: the first
`read` yields these six bytes, every later one would block; the clock stands at
`12.000000005`. -/
def Env.hello : Env :=
  { Env.quiet with
    clock_gettime := fun _ => ClockResult.ok { tv_sec := 12, tv_nsec := 5 }
    read := fun n => if n = 0 then ReadResult.bytes "hello\n".toList else ReadResult.fail EAGAIN }

/-- An environment like `Env.hello` in which `clock_gettime` fails (with
`EINVAL`, 22). -/
def Env.clockless : Env :=
  { Env.hello with clock_gettime := fun _ => ClockResult.fail 22 }

/-! ## Properties of the timespec arithmetic -/

theorem timespec_gt_iff (a b : timespec) :
    timespec_gt a b = true ↔
      a.tv_sec > b.tv_sec ∨ (a.tv_sec = b.tv_sec ∧ a.tv_nsec > b.tv_nsec) := by
  simp [timespec_gt]

theorem timespec_gt_iff_nanos (a b : timespec) (ha : a.normalized) (hb : b.normalized) :
    timespec_gt a b = true ↔ b.nanos < a.nanos := by
  rw [timespec_gt_iff]
  unfold timespec.normalized at ha hb
  unfold timespec.nanos
  omega

/-- C10, as stated, fails: `timespec_sub` subtracts 64-bit `time_t` values, and
for the normalized timespecs `deadline = {LONG_MAX, 0}` and `now = {-1, 0}` the
difference of the seconds, `2^63`, does not fit: the stored `tv_sec` is
`LONG_MIN`, which is negative, and the value is not `max 0 (deadline - now)`. -/
theorem timespec_sub_overflow :
    (⟨9223372036854775807, 0⟩ : timespec).normalized ∧
    (⟨-1, 0⟩ : timespec).normalized ∧
    timespec_sub ⟨9223372036854775807, 0⟩ ⟨-1, 0⟩ = ⟨-9223372036854775808, 0⟩ ∧
    ¬ (0 ≤ (timespec_sub ⟨9223372036854775807, 0⟩ ⟨-1, 0⟩).tv_sec) ∧
    (timespec_sub ⟨9223372036854775807, 0⟩ ⟨-1, 0⟩).nanos
      ≠ max 0 ((⟨9223372036854775807, 0⟩ : timespec).nanos - (⟨-1, 0⟩ : timespec).nanos) := by
  decide

/-- C10, amended: for normalized `deadline` and `now` whose seconds differ by
less than `2^63` (the difference fits `time_t`; so for all non-negative times,
such as those of the monotonic clock), `timespec_sub` yields a normalized,
non-negative timespec whose value in nanoseconds is `max 0 (deadline - now)`; it
is zero exactly when the deadline is due and positive exactly when
`timespec_gt (deadline, now)`. -/
theorem timespec_sub_clamped (deadline now : timespec)
    (hd : deadline.normalized) (hn : now.normalized)
    (hfit : deadline.tv_sec - now.tv_sec < 9223372036854775808) :
    (timespec_sub deadline now).normalized ∧
      0 ≤ (timespec_sub deadline now).tv_sec ∧
      (timespec_sub deadline now).nanos = max 0 (deadline.nanos - now.nanos) ∧
      ((timespec_sub deadline now).nanos = 0 ↔ deadline.nanos ≤ now.nanos) ∧
      (0 < (timespec_sub deadline now).nanos ↔ timespec_gt deadline now = true) := by
  rw [timespec_gt_iff]
  unfold timespec.normalized at hd hn ⊢
  unfold timespec_sub timespec.nanos to_long
  split_ifs <;> simp only [] <;> omega

theorem timespec_sub_clamped_witness :
    (⟨7, 100⟩ : timespec).normalized ∧ (⟨5, 200⟩ : timespec).normalized ∧
    (⟨7, 100⟩ : timespec).tv_sec - (⟨5, 200⟩ : timespec).tv_sec < 9223372036854775808 ∧
    timespec_sub ⟨7, 100⟩ ⟨5, 200⟩ = ⟨1, 999999900⟩ ∧
    ((timespec_sub ⟨7, 100⟩ ⟨5, 200⟩).normalized ∧
      0 ≤ (timespec_sub ⟨7, 100⟩ ⟨5, 200⟩).tv_sec ∧
      (timespec_sub ⟨7, 100⟩ ⟨5, 200⟩).nanos
        = max 0 ((⟨7, 100⟩ : timespec).nanos - (⟨5, 200⟩ : timespec).nanos) ∧
      ((timespec_sub ⟨7, 100⟩ ⟨5, 200⟩).nanos = 0
        ↔ (⟨7, 100⟩ : timespec).nanos ≤ (⟨5, 200⟩ : timespec).nanos) ∧
      (0 < (timespec_sub ⟨7, 100⟩ ⟨5, 200⟩).nanos ↔ timespec_gt ⟨7, 100⟩ ⟨5, 200⟩ = true)) :=
  ⟨by decide, by decide, by decide, by decide,
    timespec_sub_clamped ⟨7, 100⟩ ⟨5, 200⟩ (by decide) (by decide) (by decide)⟩

/-! ## Properties of the catch-up loop -/

theorem catch_up_spec (c : timespec) :
    ∀ (fuel : Nat) (d : timespec), (c.tv_sec - d.tv_sec + 5).toNat < 5 * fuel →
      ∃ k : Nat,
        catch_up fuel c d = some ⟨d.tv_sec + k * SPAM_PERIOD_SEC, d.tv_nsec⟩ ∧
        timespec_gt c ⟨d.tv_sec + k * SPAM_PERIOD_SEC, d.tv_nsec⟩ = false ∧
        ∀ j : Nat, j < k → timespec_gt c ⟨d.tv_sec + j * SPAM_PERIOD_SEC, d.tv_nsec⟩ = true := by
  intro fuel
  induction fuel with
  | zero => intro d h; omega
  | succ fuel ih =>
    intro d h
    by_cases hgt : timespec_gt c d = true
    · have hsec : d.tv_sec ≤ c.tv_sec := by
        rw [timespec_gt_iff] at hgt; omega
      obtain ⟨k, hk, hstop, hbefore⟩ :=
        ih ⟨d.tv_sec + SPAM_PERIOD_SEC, d.tv_nsec⟩ (by simp only [SPAM_PERIOD_SEC]; omega)
      refine ⟨k + 1, ?_, ?_, ?_⟩
      · simp only [catch_up, hgt, if_true]
        rw [hk]
        simp only [SPAM_PERIOD_SEC]
        congr 2
        push_cast
        ring
      · rw [← hstop]
        congr 2
        simp only [SPAM_PERIOD_SEC]
        push_cast
        ring
      · intro j hj
        cases j with
        | zero => simpa using hgt
        | succ j =>
          rw [← hbefore j (by omega)]
          congr 2
          simp only [SPAM_PERIOD_SEC]
          push_cast
          ring
    · refine ⟨0, ?_, ?_, ?_⟩
      · simp [catch_up, hgt]
      · simpa using hgt
      · intro j hj; omega

theorem catch_up_total (c d : timespec) :
    ∃ k : Nat,
      (∀ fuel : Nat, (c.tv_sec - d.tv_sec).toNat + 2 ≤ fuel →
        catch_up fuel c d = some ⟨d.tv_sec + k * SPAM_PERIOD_SEC, d.tv_nsec⟩) ∧
      timespec_gt c ⟨d.tv_sec + k * SPAM_PERIOD_SEC, d.tv_nsec⟩ = false ∧
      ∀ j : Nat, j < k → timespec_gt c ⟨d.tv_sec + j * SPAM_PERIOD_SEC, d.tv_nsec⟩ = true := by
  obtain ⟨k, _, hstop, hbefore⟩ :=
    catch_up_spec c ((c.tv_sec - d.tv_sec).toNat + 2) d (by omega)
  refine ⟨k, ?_, hstop, hbefore⟩
  intro fuel hfuel
  obtain ⟨k', hk', hstop', hbefore'⟩ := catch_up_spec c fuel d (by omega)
  have hkk : k' = k := by
    rcases Nat.lt_trichotomy k' k with hlt | heq | hlt
    · have := hbefore k' hlt
      rw [hstop'] at this
      exact absurd this (by decide)
    · exact heq
    · have := hbefore' k hlt
      rw [hstop] at this
      exact absurd this (by decide)
  rw [hk', hkk]

theorem timer_phase_idle (env : Env) (fuel : Nat) (c : timespec) (st : LoopState)
    (h : timespec_gt c st.messaging_time = false) :
    timer_phase env fuel c st = some (st, none) := by
  simp [timer_phase, h]

theorem timer_phase_fires (env : Env) (c : timespec) (st : LoopState)
    (h : timespec_gt c st.messaging_time = true) :
    ∃ k : Nat, 1 ≤ k ∧
      (∀ fuel : Nat, (c.tv_sec - st.messaging_time.tv_sec).toNat + 2 ≤ fuel →
        timer_phase env fuel c st =
          some ({ sys := broadcast_tick env (tick_message st.tick_n) st.sys
                  messaging_time :=
                    ⟨st.messaging_time.tv_sec + k * SPAM_PERIOD_SEC, st.messaging_time.tv_nsec⟩
                  tick_n := st.tick_n + 1 }, some (tick_message st.tick_n))) ∧
      timespec_gt c
        ⟨st.messaging_time.tv_sec + k * SPAM_PERIOD_SEC, st.messaging_time.tv_nsec⟩ = false ∧
      ∀ j : Nat, j < k →
        timespec_gt c
          ⟨st.messaging_time.tv_sec + j * SPAM_PERIOD_SEC, st.messaging_time.tv_nsec⟩ = true := by
  obtain ⟨k, hk, hstop, hbefore⟩ := catch_up_total c st.messaging_time
  refine ⟨k, ?_, ?_, hstop, hbefore⟩
  · rcases Nat.eq_zero_or_pos k with h0 | hpos
    · subst h0
      simp only [Nat.cast_zero, zero_mul, add_zero] at hstop
      rw [h] at hstop
      exact absurd hstop (by decide)
    · exact hpos
  · intro fuel hfuel
    simp only [timer_phase, h, if_true, hk fuel hfuel]

/-- C9: when the timer phase fires with deadline `d` and sample `c` past `d`, it
returns (for every sufficient budget of rounds) with the deadline
`d + k * SPAM_PERIOD_SEC` seconds and the same nanoseconds, `k >= 1` being the
least positive number of periods after which `c` is no longer past the deadline;
one tick text is produced and `tick_n` grows by one.  If `c` is 12 seconds past
`d`, then `k = 3`: the deadline moves by exactly 15 seconds. -/
theorem timer_phase_catch_up (env : Env) (c : timespec) (st : LoopState)
    (h : timespec_gt c st.messaging_time = true) :
    ∃ k : Nat, 1 ≤ k ∧
      (∀ fuel : Nat, (c.tv_sec - st.messaging_time.tv_sec).toNat + 2 ≤ fuel →
        ∃ st' : LoopState,
          timer_phase env fuel c st = some (st', some (tick_message st.tick_n)) ∧
          st'.messaging_time =
            ⟨st.messaging_time.tv_sec + k * SPAM_PERIOD_SEC, st.messaging_time.tv_nsec⟩ ∧
          st'.tick_n = st.tick_n + 1) ∧
      timespec_gt c
        ⟨st.messaging_time.tv_sec + k * SPAM_PERIOD_SEC, st.messaging_time.tv_nsec⟩ = false ∧
      (∀ j : Nat, 1 ≤ j → j < k →
        timespec_gt c
          ⟨st.messaging_time.tv_sec + j * SPAM_PERIOD_SEC, st.messaging_time.tv_nsec⟩ = true) ∧
      (c.tv_sec = st.messaging_time.tv_sec + 12 → c.tv_nsec = st.messaging_time.tv_nsec →
        k * SPAM_PERIOD_SEC = 15) := by
  obtain ⟨k, hk1, hrun, hstop, hbefore⟩ := timer_phase_fires env c st h
  refine ⟨k, hk1, ?_, hstop, fun j _ hj => hbefore j hj, ?_⟩
  · intro fuel hfuel
    exact ⟨_, hrun fuel hfuel, rfl, rfl⟩
  · intro hsec hnsec
    have h2 := hbefore 2
    have h3 := hbefore 3
    rw [timespec_gt_iff] at h2 h3
    have hstop' : ¬ (timespec_gt c
        ⟨st.messaging_time.tv_sec + k * SPAM_PERIOD_SEC, st.messaging_time.tv_nsec⟩ = true) := by
      rw [hstop]; decide
    rw [timespec_gt_iff] at hstop'
    simp only [SPAM_PERIOD_SEC] at h2 h3 hstop' ⊢
    have hk3 : k = 3 := by
      rcases Nat.lt_trichotomy k 3 with hlt | heq | hgt
      · have : k = 1 ∨ k = 2 := by omega
        rcases this with rfl | rfl <;> simp at hstop' <;> omega
      · exact heq
      · have := h3 hgt
        simp at this
        omega
    subst hk3
    norm_num

theorem timer_phase_catch_up_witness :
    timespec_gt ⟨12, 0⟩ demo_loop_state.messaging_time = true ∧
    ∃ k : Nat, 1 ≤ k ∧
      (∀ fuel : Nat,
        ((⟨12, 0⟩ : timespec).tv_sec - demo_loop_state.messaging_time.tv_sec).toNat + 2 ≤ fuel →
        ∃ st' : LoopState,
          timer_phase Env.quiet fuel ⟨12, 0⟩ demo_loop_state
            = some (st', some (tick_message demo_loop_state.tick_n)) ∧
          st'.messaging_time =
            ⟨demo_loop_state.messaging_time.tv_sec + k * SPAM_PERIOD_SEC,
              demo_loop_state.messaging_time.tv_nsec⟩ ∧
          st'.tick_n = demo_loop_state.tick_n + 1) ∧
      timespec_gt ⟨12, 0⟩
        ⟨demo_loop_state.messaging_time.tv_sec + k * SPAM_PERIOD_SEC,
          demo_loop_state.messaging_time.tv_nsec⟩ = false ∧
      (∀ j : Nat, 1 ≤ j → j < k →
        timespec_gt ⟨12, 0⟩
          ⟨demo_loop_state.messaging_time.tv_sec + j * SPAM_PERIOD_SEC,
            demo_loop_state.messaging_time.tv_nsec⟩ = true) ∧
      ((⟨12, 0⟩ : timespec).tv_sec = demo_loop_state.messaging_time.tv_sec + 12 →
        (⟨12, 0⟩ : timespec).tv_nsec = demo_loop_state.messaging_time.tv_nsec →
        k * SPAM_PERIOD_SEC = 15) :=
  ⟨by decide, timer_phase_catch_up Env.quiet ⟨12, 0⟩ demo_loop_state (by decide)⟩

/-- C6, as stated, fails: with deadline `0.0` and sample `5.0` (both normalized,
the sample past the deadline) the timer phase fires and leaves the deadline at
`5.0`, which equals the sample and is not strictly later. -/
theorem deadline_equal_to_sample :
    (⟨5, 0⟩ : timespec).normalized ∧ demo_loop_state.messaging_time.normalized ∧
    timespec_gt ⟨5, 0⟩ demo_loop_state.messaging_time = true ∧
    ∃ st' : LoopState,
      timer_phase Env.quiet 7 ⟨5, 0⟩ demo_loop_state = some (st', some (tick_message 1)) ∧
      st'.messaging_time = ⟨5, 0⟩ ∧
      timespec_gt st'.messaging_time ⟨5, 0⟩ = false := by
  refine ⟨by decide, by decide, by decide, ?_⟩
  obtain ⟨k, _, hrun, hstop, hbefore⟩ :=
    timer_phase_fires Env.quiet ⟨5, 0⟩ demo_loop_state (by decide)
  have hk : k = 1 := by
    rcases Nat.lt_trichotomy k 1 with hlt | heq | hgt
    · omega
    · exact heq
    · exact absurd (hbefore 1 hgt) (by decide)
  subst hk
  exact ⟨_, hrun 7 (by decide), by decide, by decide⟩

/-- C6, amended: for every deadline `d` and sample `c` past `d`, the timer phase
fires (for every sufficient budget of rounds) and leaves a deadline that `c` is
not past, that is, a deadline at or after `c` (for normalized values: not less
in nanoseconds), possibly equal to `c`; the timer phase run again with the same
sample `c` does not fire. -/
theorem timer_phase_deadline_not_before (env : Env) (c : timespec) (st : LoopState)
    (h : timespec_gt c st.messaging_time = true)
    (fuel : Nat) (hfuel : (c.tv_sec - st.messaging_time.tv_sec).toNat + 2 ≤ fuel) :
    ∃ st' : LoopState,
      timer_phase env fuel c st = some (st', some (tick_message st.tick_n)) ∧
      timespec_gt c st'.messaging_time = false ∧
      (c.normalized → st.messaging_time.normalized → c.nanos ≤ st'.messaging_time.nanos) ∧
      ∀ (env' : Env) (fuel' : Nat), timer_phase env' fuel' c st' = some (st', none) := by
  obtain ⟨k, _, hrun, hstop, _⟩ := timer_phase_fires env c st h
  refine ⟨_, hrun fuel hfuel, hstop, ?_, ?_⟩
  · intro hc hd
    have hd' : (⟨st.messaging_time.tv_sec + k * SPAM_PERIOD_SEC,
        st.messaging_time.tv_nsec⟩ : timespec).normalized := hd
    have := (timespec_gt_iff_nanos c _ hc hd').not
    rw [hstop] at this
    simp only [Bool.false_eq_true, not_false_eq_true, not_lt, true_iff] at this
    exact this
  · intro env' fuel'
    exact timer_phase_idle env' fuel' c _ hstop

theorem timer_phase_deadline_not_before_witness :
    timespec_gt ⟨12, 7⟩ demo_loop_state.messaging_time = true ∧
    ∃ st' : LoopState,
      timer_phase Env.quiet 14 ⟨12, 7⟩ demo_loop_state
        = some (st', some (tick_message demo_loop_state.tick_n)) ∧
      timespec_gt ⟨12, 7⟩ st'.messaging_time = false ∧
      ((⟨12, 7⟩ : timespec).normalized → demo_loop_state.messaging_time.normalized →
        (⟨12, 7⟩ : timespec).nanos ≤ st'.messaging_time.nanos) ∧
      ∀ (env' : Env) (fuel' : Nat), timer_phase env' fuel' ⟨12, 7⟩ st' = some (st', none) :=
  ⟨by decide,
    timer_phase_deadline_not_before Env.quiet ⟨12, 7⟩ demo_loop_state (by decide) 14
      (by decide)⟩

/-! ## Properties of the array operations -/

theorem take_succ_set (l : List Int) (n : Nat) (a : Int) (h : n < l.length) :
    (l.set n a).take (n + 1) = l.take n ++ [a] := by
  apply List.ext_getElem?
  intro k
  rw [List.getElem?_take, List.getElem?_set, List.getElem?_append, List.getElem?_take,
    List.length_take]
  have hmin : min n l.length = n := by omega
  rw [hmin]
  by_cases h1 : k < n
  · have h2 : ¬ n = k := by omega
    have h3 : k < n + 1 := by omega
    simp [h1, h2, h3]
  · by_cases h2 : n = k
    · subst h2
      simp [h]
    · have h3 : ¬ k < n + 1 := by omega
      have h4 : ([a] : List Int)[k - n]? = none := by
        apply List.getElem?_eq_none
        simp only [List.length_singleton]
        omega
      simp [h1, h3, h4]

theorem length_memmove (l : List Int) (i c : Nat) (hi : i < c) (hc : c ≤ l.length) :
    (memmove l i (i + 1) (c - i - 1)).length = l.length := by
  simp only [memmove, List.length_append, List.length_take, List.length_drop]
  omega

theorem take_memmove (l : List Int) (i c : Nat) (hi : i < c) (hc : c ≤ l.length) :
    (memmove l i (i + 1) (c - i - 1)).take (c - 1) = (l.take c).eraseIdx i := by
  apply List.ext_getElem?
  intro k
  simp only [memmove, List.getElem?_take, List.getElem?_eraseIdx, List.getElem?_append,
    List.getElem?_drop, List.length_take, List.length_drop]
  have hmin : min i l.length = i := by omega
  have hmin2 : min (c - i - 1) (l.length - (i + 1)) = c - i - 1 := by omega
  rw [hmin, hmin2]
  by_cases h1 : k < i
  · have h2 : k < c - 1 := by omega
    have h3 : k < c := by omega
    simp [h1, h2, h3]
  · by_cases h2 : k < c - 1
    · have h3 : k - i < c - i - 1 := by omega
      have h4 : k + 1 < c := by omega
      have h5 : i + 1 + (k - i) = k + 1 := by omega
      simp [h1, h2, h3, h4, h5]
    · have h4 : ¬ k + 1 < c := by omega
      simp [h1, h2, h4]

theorem map_getD_range (l : List Int) (n : Nat) (h : n ≤ l.length) :
    (List.range n).map (fun j => l.getD j 0) = l.take n := by
  apply List.ext_getElem?
  intro k
  rw [List.getElem?_map, List.getElem?_take]
  by_cases hk : k < n
  · have hk2 : k < l.length := by omega
    simp [List.getElem?_range hk, hk, List.getD_eq_getElem?_getD, List.getElem?_eq_getElem hk2]
  · have : (List.range n)[k]? = none := by
      apply List.getElem?_eq_none
      simp only [List.length_range]
      omega
    simp [this, hk]

/-! ## Properties of the table operations -/

theorem length_connections (s : application_t) (hwf : s.wf) :
    s.connections.length = s.connection_count.toNat := by
  obtain ⟨h0, h1, h2⟩ := hwf
  simp only [application_t.connections, List.length_take]
  omega

theorem application_create_wf (listener_fd max_connections : Int) (memory : Nat → Int)
    (h : 0 ≤ max_connections) :
    (application_create listener_fd max_connections memory).wf := by
  simp [application_create, application_t.wf, h]

theorem add_connection_full (env : Env) (w : Sys) (fd : Int)
    (h : w.app.connection_count = w.app.max_connections) :
    application_add_connection env w fd =
      { w with
        trace := w.trace ++ [Event.stderr (LogLine.limit_reached w.app.max_connections),
                             Event.close fd] } := by
  simp [application_add_connection, h]

theorem add_connection_nonblock_failed (env : Env) (w : Sys) (fd : Int)
    (hroom : w.app.connection_count ≠ w.app.max_connections)
    (hret : (env.fcntl w.n_fcntl).ret = -1) :
    application_add_connection env w fd =
      { w with
        n_fcntl := w.n_fcntl + 1
        trace := w.trace ++ [Event.stderr (LogLine.nonblock_failed (env.fcntl w.n_fcntl).errno),
                             Event.close fd] } := by
  simp [application_add_connection, hroom, hret]

theorem add_connection_appended (env : Env) (w : Sys) (fd : Int)
    (hroom : w.app.connection_count ≠ w.app.max_connections)
    (hret : (env.fcntl w.n_fcntl).ret ≠ -1) :
    application_add_connection env w fd =
      { w with
        n_fcntl := w.n_fcntl + 1
        app := { w.app with
          connection_fds := w.app.connection_fds.set w.app.connection_count.toNat fd
          connection_count := w.app.connection_count + 1 } } := by
  simp [application_add_connection, hroom, hret]

theorem add_connection_rejected (env : Env) (w : Sys) (fd : Int)
    (h : w.app.connection_count = w.app.max_connections ∨ (env.fcntl w.n_fcntl).ret = -1) :
    (application_add_connection env w fd).app = w.app ∧
      ∃ line : LogLine,
        (application_add_connection env w fd).trace
          = w.trace ++ [Event.stderr line, Event.close fd] := by
  by_cases hfull : w.app.connection_count = w.app.max_connections
  · rw [add_connection_full env w fd hfull]
    exact ⟨rfl, _, rfl⟩
  · have hret : (env.fcntl w.n_fcntl).ret = -1 := by
      rcases h with h | h
      · exact absurd h hfull
      · exact h
    rw [add_connection_nonblock_failed env w fd hfull hret]
    exact ⟨rfl, _, rfl⟩

theorem add_connection_accepted (env : Env) (w : Sys) (fd : Int) (hwf : w.app.wf)
    (hroom : w.app.connection_count ≠ w.app.max_connections)
    (hret : (env.fcntl w.n_fcntl).ret ≠ -1) :
    (application_add_connection env w fd).app.connections = w.app.connections ++ [fd] ∧
      (application_add_connection env w fd).app.connection_count
        = w.app.connection_count + 1 ∧
      (application_add_connection env w fd).app.max_connections = w.app.max_connections ∧
      (application_add_connection env w fd).app.listener_fd = w.app.listener_fd ∧
      (application_add_connection env w fd).app.wf ∧
      (application_add_connection env w fd).trace = w.trace := by
  obtain ⟨h0, h1, h2⟩ := hwf
  rw [add_connection_appended env w fd hroom hret]
  refine ⟨?_, rfl, rfl, rfl, ?_, rfl⟩
  · show List.take (w.app.connection_count + 1).toNat
        (w.app.connection_fds.set w.app.connection_count.toNat fd)
      = List.take w.app.connection_count.toNat w.app.connection_fds ++ [fd]
    have hn : (w.app.connection_count + 1).toNat = w.app.connection_count.toNat + 1 := by omega
    rw [hn]
    exact take_succ_set _ _ _ (by omega)
  · refine ⟨?_, ?_, ?_⟩
    · show 0 ≤ w.app.connection_count + 1
      omega
    · show w.app.connection_count + 1 ≤ w.app.max_connections
      omega
    · show (w.app.connection_fds.set w.app.connection_count.toNat fd).length
        = w.app.max_connections.toNat
      rw [List.length_set]; exact h2

theorem add_connection_wf (env : Env) (w : Sys) (fd : Int) (hwf : w.app.wf) :
    (application_add_connection env w fd).app.wf ∧
      (application_add_connection env w fd).app.max_connections = w.app.max_connections := by
  by_cases h : w.app.connection_count = w.app.max_connections ∨ (env.fcntl w.n_fcntl).ret = -1
  · rw [(add_connection_rejected env w fd h).1]
    exact ⟨hwf, rfl⟩
  · push_neg at h
    obtain ⟨_, _, hmax, _, hwf', _⟩ := add_connection_accepted env w fd hwf h.1 h.2
    exact ⟨hwf', hmax⟩

theorem remove_connection_table (w : Sys) (i : Int) (hwf : w.app.wf)
    (hi : 0 ≤ i) (hlt : i < w.app.connection_count) :
    (application_remove_connection w i).app.connections
        = w.app.connections.eraseIdx i.toNat ∧
      (application_remove_connection w i).app.connection_count
        = w.app.connection_count - 1 ∧
      (application_remove_connection w i).app.max_connections = w.app.max_connections ∧
      (application_remove_connection w i).app.listener_fd = w.app.listener_fd ∧
      (application_remove_connection w i).app.wf ∧
      w.app.connections[i.toNat]? = some (w.app.connection_fds.getD i.toNat 0) ∧
      (application_remove_connection w i).trace
        = w.trace ++ [Event.close (w.app.connection_fds.getD i.toNat 0)] := by
  obtain ⟨h0, h1, h2⟩ := hwf
  have hi' : i.toNat < w.app.connection_count.toNat := by omega
  have hc' : w.app.connection_count.toNat ≤ w.app.connection_fds.length := by omega
  have e1 : (i + 1).toNat = i.toNat + 1 := by omega
  have e2 : (w.app.connection_count - i - 1).toNat
      = w.app.connection_count.toNat - i.toNat - 1 := by omega
  have e3 : (w.app.connection_count - 1).toNat = w.app.connection_count.toNat - 1 := by omega
  refine ⟨?_, rfl, rfl, rfl, ?_, ?_, rfl⟩
  · show List.take (w.app.connection_count - 1).toNat
        (memmove w.app.connection_fds i.toNat (i + 1).toNat
          (w.app.connection_count - i - 1).toNat)
      = (List.take w.app.connection_count.toNat w.app.connection_fds).eraseIdx i.toNat
    rw [e1, e2, e3]
    exact take_memmove _ _ _ hi' hc'
  · refine ⟨?_, ?_, ?_⟩
    · show 0 ≤ w.app.connection_count - 1
      omega
    · show w.app.connection_count - 1 ≤ w.app.max_connections
      omega
    · show (memmove w.app.connection_fds i.toNat (i + 1).toNat
          (w.app.connection_count - i - 1).toNat).length = w.app.max_connections.toNat
      rw [e1, e2, length_memmove _ _ _ hi' hc']
      exact h2
  · have hlen : i.toNat < w.app.connection_fds.length := by omega
    simp only [application_t.connections, List.getElem?_take, hi', if_true,
      List.getD_eq_getElem?_getD, List.getElem?_eq_getElem hlen, Option.getD_some]

theorem run_table_ops_wf (env : Env) :
    ∀ (ops : List TableOp) (w w' : Sys), w.app.wf → run_table_ops env ops w = some w' →
      w'.app.wf ∧ w'.app.max_connections = w.app.max_connections := by
  intro ops
  induction ops with
  | nil =>
    intro w w' hwf hrun
    simp only [run_table_ops, Option.some.injEq] at hrun
    subst hrun
    exact ⟨hwf, rfl⟩
  | cons op ops ih =>
    intro w w' hwf hrun
    cases op with
    | add fd =>
      simp only [run_table_ops] at hrun
      obtain ⟨hwf1, hmax1⟩ := add_connection_wf env w fd hwf
      obtain ⟨hwf2, hmax2⟩ := ih _ _ hwf1 hrun
      exact ⟨hwf2, hmax2.trans hmax1⟩
    | remove i =>
      simp only [run_table_ops] at hrun
      split_ifs at hrun with hidx
      obtain ⟨_, _, hmax1, _, hwf1, _⟩ := remove_connection_table w i hwf hidx.1 hidx.2
      obtain ⟨hwf2, hmax2⟩ := ih _ _ hwf1 hrun
      exact ⟨hwf2, hmax2.trans hmax1⟩

/-- C1: from the table made by `application_create` with a capacity `>= 0`, after
every finite sequence of `application_add_connection` calls (any handle, any
outcome of the non-blocking switch) and `application_remove_connection` calls
(with `0 <= index < connection_count`), `0 <= connection_count <=
max_connections` holds and `max_connections` is still the capacity. -/
theorem capacity_invariant (env : Env) (listener_fd capacity : Int) (memory : Nat → Int)
    (hcap : 0 ≤ capacity) (ops : List TableOp) (w' : Sys)
    (hrun : run_table_ops env ops
      (Sys.init (application_create listener_fd capacity memory)) = some w') :
    0 ≤ w'.app.connection_count ∧ w'.app.connection_count ≤ w'.app.max_connections ∧
      w'.app.max_connections = capacity := by
  obtain ⟨hwf, hmax⟩ :=
    run_table_ops_wf env ops _ w' (application_create_wf listener_fd capacity memory hcap) hrun
  exact ⟨hwf.1, hwf.2.1, hmax⟩

theorem capacity_invariant_witness :
    (0 : Int) ≤ 2 ∧
    run_table_ops Env.quiet
      [TableOp.add 4, TableOp.add 5, TableOp.add 6, TableOp.remove 0, TableOp.add 7]
      (Sys.init (application_create 3 2 (fun _ => 0)))
      = some { app := { listener_fd := 3, max_connections := 2, connection_count := 2,
                        connection_fds := [5, 7] }
               trace := [Event.stderr (LogLine.limit_reached 2), Event.close 6, Event.close 4]
               n_clock_gettime := 0, n_pselect := 0, n_accept := 0, n_fcntl := 3,
               n_read := 0, n_write := 0 } ∧
    (0 : Int) ≤ 2 ∧ (2 : Int) ≤ 2 ∧ (2 : Int) = 2 :=
  ⟨by decide, by decide,
    capacity_invariant Env.quiet 3 2 (fun _ => 0) (by decide)
      [TableOp.add 4, TableOp.add 5, TableOp.add 6, TableOp.remove 0, TableOp.add 7]
      { app := { listener_fd := 3, max_connections := 2, connection_count := 2,
                 connection_fds := [5, 7] }
        trace := [Event.stderr (LogLine.limit_reached 2), Event.close 6, Event.close 4]
        n_clock_gettime := 0, n_pselect := 0, n_accept := 0, n_fcntl := 3,
        n_read := 0, n_write := 0 }
      (by decide)⟩

/-- C2: `application_add_connection (s, h)` on a well-formed table.  If the table
is full, or the switch of `h` to non-blocking mode fails, the table (sequence
and count) is left exactly as it was, `h` is closed and no entry is created;
otherwise `h` is appended as the last element, the count grows by exactly one,
every earlier entry keeps its position and `h` is not closed. -/
theorem add_connection_spec (env : Env) (w : Sys) (h : Int) (hwf : w.app.wf) :
    ((w.app.connection_count = w.app.max_connections ∨ (env.fcntl w.n_fcntl).ret = -1) →
      (application_add_connection env w h).app = w.app ∧
      (application_add_connection env w h).app.connections = w.app.connections ∧
      (application_add_connection env w h).app.connection_count = w.app.connection_count ∧
      ∃ line : LogLine,
        (application_add_connection env w h).trace
          = w.trace ++ [Event.stderr line, Event.close h]) ∧
    (w.app.connection_count ≠ w.app.max_connections → (env.fcntl w.n_fcntl).ret ≠ -1 →
      (application_add_connection env w h).app.connections = w.app.connections ++ [h] ∧
      (application_add_connection env w h).app.connections.getLast? = some h ∧
      (application_add_connection env w h).app.connection_count
        = w.app.connection_count + 1 ∧
      (∀ k : Nat, k < w.app.connections.length →
        (application_add_connection env w h).app.connections[k]? = w.app.connections[k]?) ∧
      (application_add_connection env w h).trace = w.trace) := by
  constructor
  · intro hrej
    obtain ⟨happ, line, htrace⟩ := add_connection_rejected env w h hrej
    exact ⟨happ, by rw [happ], by rw [happ], line, htrace⟩
  · intro hroom hret
    obtain ⟨hconn, hcount, _, _, _, htrace⟩ := add_connection_accepted env w h hwf hroom hret
    refine ⟨hconn, ?_, hcount, ?_, htrace⟩
    · rw [hconn]; simp
    · intro k hk
      rw [hconn, List.getElem?_append_left hk]

theorem add_connection_spec_witness :
    (Sys.init demo_table).app.wf ∧
    (((Sys.init demo_table).app.connection_count = (Sys.init demo_table).app.max_connections ∨
        (Env.quiet.fcntl (Sys.init demo_table).n_fcntl).ret = -1) →
      (application_add_connection Env.quiet (Sys.init demo_table) 9).app
        = (Sys.init demo_table).app ∧
      (application_add_connection Env.quiet (Sys.init demo_table) 9).app.connections
        = (Sys.init demo_table).app.connections ∧
      (application_add_connection Env.quiet (Sys.init demo_table) 9).app.connection_count
        = (Sys.init demo_table).app.connection_count ∧
      ∃ line : LogLine,
        (application_add_connection Env.quiet (Sys.init demo_table) 9).trace
          = (Sys.init demo_table).trace ++ [Event.stderr line, Event.close 9]) ∧
    ((Sys.init demo_table).app.connection_count ≠ (Sys.init demo_table).app.max_connections →
      (Env.quiet.fcntl (Sys.init demo_table).n_fcntl).ret ≠ -1 →
      (application_add_connection Env.quiet (Sys.init demo_table) 9).app.connections
        = (Sys.init demo_table).app.connections ++ [9] ∧
      (application_add_connection Env.quiet (Sys.init demo_table) 9).app.connections.getLast?
        = some 9 ∧
      (application_add_connection Env.quiet (Sys.init demo_table) 9).app.connection_count
        = (Sys.init demo_table).app.connection_count + 1 ∧
      (∀ k : Nat, k < (Sys.init demo_table).app.connections.length →
        (application_add_connection Env.quiet (Sys.init demo_table) 9).app.connections[k]?
          = (Sys.init demo_table).app.connections[k]?) ∧
      (application_add_connection Env.quiet (Sys.init demo_table) 9).trace
        = (Sys.init demo_table).trace) :=
  ⟨by decide, add_connection_spec Env.quiet (Sys.init demo_table) 9 (by decide)⟩

/-- C3: `application_remove_connection (s, i)` on a well-formed table, for every
index `0 <= i < connection_count`: the handle at index `i` is the one closed,
the resulting sequence is the original one with exactly the element at index `i`
erased (entries at indices `< i` keep their index, entries at indices `> i` move
down by one), and `connection_count` decreases by exactly one. -/
theorem remove_connection_spec (w : Sys) (i : Int) (hwf : w.app.wf)
    (hi : 0 ≤ i) (hlt : i < w.app.connection_count) :
    (∃ fd : Int, w.app.connections[i.toNat]? = some fd ∧
      (application_remove_connection w i).trace = w.trace ++ [Event.close fd]) ∧
    (application_remove_connection w i).app.connections
      = w.app.connections.eraseIdx i.toNat ∧
    (∀ k : Nat, k < i.toNat →
      (application_remove_connection w i).app.connections[k]? = w.app.connections[k]?) ∧
    (∀ k : Nat, i.toNat ≤ k →
      (application_remove_connection w i).app.connections[k]? = w.app.connections[k + 1]?) ∧
    (application_remove_connection w i).app.connections.length + 1
      = w.app.connections.length ∧
    (application_remove_connection w i).app.connection_count
      = w.app.connection_count - 1 := by
  obtain ⟨hconn, hcount, _, _, hwf', hget, htrace⟩ := remove_connection_table w i hwf hi hlt
  refine ⟨⟨_, hget, htrace⟩, hconn, ?_, ?_, ?_, hcount⟩
  · intro k hk
    rw [hconn, List.getElem?_eraseIdx, if_pos hk]
  · intro k hk
    rw [hconn, List.getElem?_eraseIdx, if_neg (by omega)]
  · rw [length_connections _ hwf', length_connections _ hwf, hcount]
    omega

theorem remove_connection_spec_witness :
    (Sys.init demo_table).app.wf ∧ (0 : Int) ≤ 1 ∧
    (1 : Int) < (Sys.init demo_table).app.connection_count ∧
    ((∃ fd : Int, (Sys.init demo_table).app.connections[(1 : Int).toNat]? = some fd ∧
      (application_remove_connection (Sys.init demo_table) 1).trace
        = (Sys.init demo_table).trace ++ [Event.close fd]) ∧
    (application_remove_connection (Sys.init demo_table) 1).app.connections
      = (Sys.init demo_table).app.connections.eraseIdx (1 : Int).toNat ∧
    (∀ k : Nat, k < (1 : Int).toNat →
      (application_remove_connection (Sys.init demo_table) 1).app.connections[k]?
        = (Sys.init demo_table).app.connections[k]?) ∧
    (∀ k : Nat, (1 : Int).toNat ≤ k →
      (application_remove_connection (Sys.init demo_table) 1).app.connections[k]?
        = (Sys.init demo_table).app.connections[k + 1]?) ∧
    (application_remove_connection (Sys.init demo_table) 1).app.connections.length + 1
      = (Sys.init demo_table).app.connections.length ∧
    (application_remove_connection (Sys.init demo_table) 1).app.connection_count
      = (Sys.init demo_table).app.connection_count - 1) :=
  ⟨by decide, by decide, by decide,
    remove_connection_spec (Sys.init demo_table) 1 (by decide) (by decide) (by decide)⟩

/-! ## Properties of the fan-out loops -/

theorem fanout_fold (env : Env) (mk : Int → Event) :
    ∀ (js : List Nat) (w : Sys),
      js.foldl (fun w j => write_one env (mk (w.app.connection_fds.getD j 0)) w) w =
        { w with
          n_write := w.n_write + js.length
          trace := w.trace ++
            fanout_events env w.n_write (js.map fun j => mk (w.app.connection_fds.getD j 0)) } := by
  intro js
  induction js with
  | nil => intro w; simp [fanout_events]
  | cons j js ih =>
    intro w
    rw [List.foldl_cons, ih]
    simp only [write_one, List.length_cons, List.map_cons, fanout_events, List.append_assoc]
    congr 1
    omega

theorem fanout_calls (s : application_t) (hwf : s.wf) (mk : Int → Event) :
    ((List.range s.connection_count.toNat).map fun j => mk (s.connection_fds.getD j 0))
      = s.connections.map mk := by
  obtain ⟨h0, h1, h2⟩ := hwf
  have := map_getD_range s.connection_fds s.connection_count.toNat (by omega)
  rw [application_t.connections, ← this, List.map_map]
  rfl

theorem broadcast_message_eq (env : Env) (iov : List Char) (w : Sys) (hwf : w.app.wf) :
    broadcast_message env iov w =
      { w with
        n_write := w.n_write + w.app.connections.length
        trace := w.trace ++
          fanout_events env w.n_write (w.app.connections.map fun fd => Event.writev fd iov) } := by
  unfold broadcast_message
  rw [fanout_fold env (fun fd => Event.writev fd iov),
    fanout_calls w.app hwf (fun fd => Event.writev fd iov), List.length_range,
    length_connections _ hwf]

theorem broadcast_tick_eq (env : Env) (message : List Char) (w : Sys) (hwf : w.app.wf) :
    broadcast_tick env message w =
      { w with
        n_write := w.n_write + w.app.connections.length
        trace := w.trace ++
          fanout_events env w.n_write
            (w.app.connections.map fun fd => Event.write fd message) } := by
  unfold broadcast_tick
  rw [fanout_fold env (fun fd => Event.write fd message),
    fanout_calls w.app hwf (fun fd => Event.write fd message), List.length_range,
    length_connections _ hwf]

theorem writes_of_fanout (env : Env) :
    ∀ (calls : List Event) (n : Nat), writes_of calls = calls →
      writes_of (fanout_events env n calls) = calls := by
  intro calls
  induction calls with
  | nil => intro n _; rfl
  | cons call calls ih =>
    intro n h
    have hcall : writes_of [call] = [call] ∧ writes_of calls = calls := by
      unfold writes_of at h ⊢
      rw [List.filter_cons] at h
      split_ifs at h with hc
      · simp only [List.cons.injEq, true_and] at h
        exact ⟨by simp [List.filter_cons, hc], h⟩
      · have hlen := congrArg List.length h
        have hle := List.length_filter_le
          (fun e => match e with
            | Event.writev _ _ => true
            | Event.write _ _ => true
            | _ => false) calls
        simp only [List.length_cons] at hlen
        omega
    have hsplit : ∀ a b : List Event, writes_of (a ++ b) = writes_of a ++ writes_of b := by
      intro a b; simp [writes_of]
    rw [fanout_events, hsplit, ih (n + 1) hcall.2]
    have hlog : ∀ line, writes_of [call, Event.stderr line] = [call] := by
      intro line
      have := hsplit [call] [Event.stderr line]
      simp only [List.singleton_append] at this
      rw [this, hcall.1]
      rfl
    split_ifs
    · rw [hlog]; rfl
    · rw [hcall.1]; rfl

theorem writes_of_map_writev (fds : List Int) (iov : List Char) :
    writes_of (fds.map fun fd => Event.writev fd iov) = fds.map fun fd => Event.writev fd iov := by
  induction fds with
  | nil => rfl
  | cons fd fds ih =>
    simp only [List.map_cons, writes_of, List.filter_cons, if_true] at ih ⊢
    rw [ih]

theorem writes_of_map_write (fds : List Int) (message : List Char) :
    writes_of (fds.map fun fd => Event.write fd message)
      = fds.map fun fd => Event.write fd message := by
  induction fds with
  | nil => rfl
  | cons fd fds ih =>
    simp only [List.map_cons, writes_of, List.filter_cons, if_true] at ih ⊢
    rw [ih]

theorem reads_of_fanout (env : Env) :
    ∀ (calls : List Event) (n : Nat), reads_of calls = [] →
      reads_of (fanout_events env n calls) = [] := by
  intro calls
  induction calls with
  | nil => intro n _; rfl
  | cons call calls ih =>
    intro n h
    have hsplit : ∀ a b : List Event, reads_of (a ++ b) = reads_of a ++ reads_of b := by
      intro a b; simp [reads_of]
    have h' : reads_of ([call] ++ calls) = [] := h
    rw [hsplit, List.append_eq_nil] at h'
    rw [fanout_events, hsplit, ih (n + 1) h'.2]
    split_ifs
    · have := hsplit [call] [Event.stderr (LogLine.write_failed (env.write n).errno)]
      simp only [List.singleton_append] at this
      rw [this, h'.1]
      rfl
    · rw [h'.1]; rfl

theorem written_fds_fanout (env : Env) (mk : Int → Event)
    (hmk : ∀ fd, written_fds [mk fd] = [fd]) :
    ∀ (fds : List Int) (n : Nat), written_fds (fanout_events env n (fds.map mk)) = fds := by
  have hsplit : ∀ a b : List Event, written_fds (a ++ b) = written_fds a ++ written_fds b := by
    intro a b; simp [written_fds]
  intro fds
  induction fds with
  | nil => intro n; rfl
  | cons fd fds ih =>
    intro n
    rw [List.map_cons, fanout_events, hsplit, ih (n + 1)]
    split_ifs
    · have := hsplit [mk fd] [Event.stderr (LogLine.write_failed (env.write n).errno)]
      simp only [List.singleton_append] at this
      rw [this, hmk fd]
      rfl
    · rw [hmk fd]; rfl

theorem not_mem_eraseIdx_of_nodup (l : List Int) (k : Nat) (x : Int) (hnd : l.Nodup)
    (hk : l[k]? = some x) : x ∉ l.eraseIdx k := by
  intro hmem
  rw [List.mem_eraseIdx_iff_getElem?] at hmem
  obtain ⟨i, hne, hi⟩ := hmem
  obtain ⟨hi1, hi2⟩ := List.getElem?_eq_some.mp hi
  obtain ⟨hk1, hk2⟩ := List.getElem?_eq_some.mp hk
  exact hne ((hnd.getElem_inj_iff).mp (hi2.trans hk2.symm))

theorem broadcast_message_targets (env : Env) (iov : List Char) (v : Sys) (hwf : v.app.wf) :
    ∃ evs : List Event,
      (broadcast_message env iov v).trace = v.trace ++ evs ∧
      written_fds evs = v.app.connections := by
  rw [broadcast_message_eq env iov v hwf]
  exact ⟨_, rfl, written_fds_fanout env (fun fd => Event.writev fd iov) (fun _ => rfl) _ _⟩

theorem broadcast_tick_targets (env : Env) (message : List Char) (v : Sys) (hwf : v.app.wf) :
    ∃ evs : List Event,
      (broadcast_tick env message v).trace = v.trace ++ evs ∧
      written_fds evs = v.app.connections := by
  rw [broadcast_tick_eq env message v hwf]
  exact ⟨_, rfl, written_fds_fanout env (fun fd => Event.write fd message) (fun _ => rfl) _ _⟩

/-- C7: if the handles of a well-formed table are pairwise distinct, then after
`application_remove_connection (s, i)` the removed, closed handle occurs nowhere
in the table; a message fan-out or a tick fan-out over a table that does not
contain the handle (this one in particular) writes exactly to the table entries
and so never to that handle; and pairwise distinctness is preserved by the
removal and by `application_add_connection` of a handle not yet in the table. -/
theorem closed_handle_not_written (env : Env) (w : Sys) (i : Int) (hwf : w.app.wf)
    (hi : 0 ≤ i) (hlt : i < w.app.connection_count) (hnd : w.app.connections.Nodup) :
    ∃ fd : Int,
      w.app.connections[i.toNat]? = some fd ∧
      (application_remove_connection w i).trace = w.trace ++ [Event.close fd] ∧
      fd ∉ (application_remove_connection w i).app.connections ∧
      (application_remove_connection w i).app.connections.Nodup ∧
      (∀ iov : List Char, ∃ evs : List Event,
        (broadcast_message env iov (application_remove_connection w i)).trace
          = (application_remove_connection w i).trace ++ evs ∧
        fd ∉ written_fds evs) ∧
      (∀ message : List Char, ∃ evs : List Event,
        (broadcast_tick env message (application_remove_connection w i)).trace
          = (application_remove_connection w i).trace ++ evs ∧
        fd ∉ written_fds evs) ∧
      (∀ v : Sys, v.app.wf → fd ∉ v.app.connections →
        (∀ iov : List Char, ∃ evs : List Event,
          (broadcast_message env iov v).trace = v.trace ++ evs ∧ fd ∉ written_fds evs) ∧
        (∀ message : List Char, ∃ evs : List Event,
          (broadcast_tick env message v).trace = v.trace ++ evs ∧ fd ∉ written_fds evs)) ∧
      (∀ h : Int, h ∉ w.app.connections →
        (application_add_connection env w h).app.connections.Nodup) := by
  obtain ⟨hconn, _, _, _, hwf', hget, htrace⟩ := remove_connection_table w i hwf hi hlt
  have hgone : w.app.connection_fds.getD i.toNat 0
      ∉ (application_remove_connection w i).app.connections := by
    rw [hconn]
    exact not_mem_eraseIdx_of_nodup _ _ _ hnd hget
  have hgen : ∀ v : Sys, v.app.wf → w.app.connection_fds.getD i.toNat 0 ∉ v.app.connections →
      (∀ iov : List Char, ∃ evs : List Event,
        (broadcast_message env iov v).trace = v.trace ++ evs ∧
        w.app.connection_fds.getD i.toNat 0 ∉ written_fds evs) ∧
      (∀ message : List Char, ∃ evs : List Event,
        (broadcast_tick env message v).trace = v.trace ++ evs ∧
        w.app.connection_fds.getD i.toNat 0 ∉ written_fds evs) := by
    intro v hv hnot
    constructor
    · intro iov
      obtain ⟨evs, h1, h2⟩ := broadcast_message_targets env iov v hv
      exact ⟨evs, h1, by rw [h2]; exact hnot⟩
    · intro message
      obtain ⟨evs, h1, h2⟩ := broadcast_tick_targets env message v hv
      exact ⟨evs, h1, by rw [h2]; exact hnot⟩
  refine ⟨_, hget, htrace, hgone, ?_, (hgen _ hwf' hgone).1, (hgen _ hwf' hgone).2, hgen, ?_⟩
  · rw [hconn]
    exact hnd.eraseIdx _
  · intro h hnot
    by_cases hrej : w.app.connection_count = w.app.max_connections ∨
        (env.fcntl w.n_fcntl).ret = -1
    · rw [(add_connection_rejected env w h hrej).1]
      exact hnd
    · push_neg at hrej
      rw [(add_connection_accepted env w h hwf hrej.1 hrej.2).1]
      rw [List.nodup_append]
      refine ⟨hnd, List.nodup_singleton h, ?_⟩
      intro x hx hx'
      rw [List.mem_singleton] at hx'
      subst hx'
      exact hnot hx

theorem closed_handle_not_written_witness :
    (Sys.init demo_table).app.wf ∧ (0 : Int) ≤ 1 ∧
    (1 : Int) < (Sys.init demo_table).app.connection_count ∧
    (Sys.init demo_table).app.connections.Nodup ∧
    ∃ fd : Int,
      (Sys.init demo_table).app.connections[(1 : Int).toNat]? = some fd ∧
      (application_remove_connection (Sys.init demo_table) 1).trace
        = (Sys.init demo_table).trace ++ [Event.close fd] ∧
      fd ∉ (application_remove_connection (Sys.init demo_table) 1).app.connections ∧
      (application_remove_connection (Sys.init demo_table) 1).app.connections.Nodup ∧
      (∀ iov : List Char, ∃ evs : List Event,
        (broadcast_message Env.quiet iov
            (application_remove_connection (Sys.init demo_table) 1)).trace
          = (application_remove_connection (Sys.init demo_table) 1).trace ++ evs ∧
        fd ∉ written_fds evs) ∧
      (∀ message : List Char, ∃ evs : List Event,
        (broadcast_tick Env.quiet message
            (application_remove_connection (Sys.init demo_table) 1)).trace
          = (application_remove_connection (Sys.init demo_table) 1).trace ++ evs ∧
        fd ∉ written_fds evs) ∧
      (∀ v : Sys, v.app.wf → fd ∉ v.app.connections →
        (∀ iov : List Char, ∃ evs : List Event,
          (broadcast_message Env.quiet iov v).trace = v.trace ++ evs ∧
          fd ∉ written_fds evs) ∧
        (∀ message : List Char, ∃ evs : List Event,
          (broadcast_tick Env.quiet message v).trace = v.trace ++ evs ∧
          fd ∉ written_fds evs)) ∧
      (∀ h : Int, h ∉ (Sys.init demo_table).app.connections →
        (application_add_connection Env.quiet (Sys.init demo_table) h).app.connections.Nodup) :=
  ⟨by decide, by decide, by decide, by decide,
    closed_handle_not_written Env.quiet (Sys.init demo_table) 1 (by decide) (by decide)
      (by decide) (by decide)⟩

/-! ## Properties of the read loop of one connection -/

theorem read_loop_data (env : Env) (fd : Int) (fuel : Nat) (w : Sys) (buffer : List Char)
    (t : timespec) (hread : env.read w.n_read = ReadResult.bytes buffer) (hlen : buffer ≠ [])
    (hclock : env.clock_gettime w.n_clock_gettime = ClockResult.ok t) :
    read_loop env fd (fuel + 1) w =
      read_loop env fd fuel
        (broadcast_message env (message_frame fd t buffer)
          { w with
            n_read := w.n_read + 1
            n_clock_gettime := w.n_clock_gettime + 1
            trace := w.trace ++ [Event.read fd] }) := by
  have hpos : (0 : Int) < (buffer.length : Int) := by
    have : 0 < buffer.length := List.length_pos.mpr hlen
    omega
  simp only [read_loop, hread, ReadResult.len, ReadResult.buffer, hclock, gt_iff_lt, hpos,
    if_true]

theorem read_loop_stop (env : Env) (fd : Int) (fuel : Nat) (w : Sys)
    (hread : (env.read w.n_read).len ≤ 0) :
    read_loop env fd (fuel + 1) w =
      some (Flow.next (env.read w.n_read,
        { w with n_read := w.n_read + 1, trace := w.trace ++ [Event.read fd] })) := by
  have hneg : ¬ (env.read w.n_read).len > 0 := by omega
  simp only [read_loop, hneg, if_false]

theorem read_loop_clock_fail (env : Env) (fd : Int) (fuel : Nat) (w : Sys)
    (buffer : List Char) (errno : Int)
    (hread : env.read w.n_read = ReadResult.bytes buffer) (hlen : buffer ≠ [])
    (hclock : env.clock_gettime w.n_clock_gettime = ClockResult.fail errno) :
    read_loop env fd (fuel + 1) w =
      some (Flow.ret 1
        { w with
          n_read := w.n_read + 1
          n_clock_gettime := w.n_clock_gettime + 1
          trace := w.trace ++ [Event.read fd] ++
            [Event.stderr (LogLine.gettime_failed errno)] }) := by
  have hpos : (0 : Int) < (buffer.length : Int) := by
    have : 0 < buffer.length := List.length_pos.mpr hlen
    omega
  simp only [read_loop, hread, ReadResult.len, hclock, gt_iff_lt, hpos, if_true]

theorem read_loop_data_exact (env : Env) (fd : Int) (fuel : Nat) (w : Sys)
    (buffer : List Char) (t : timespec) (hwf : w.app.wf)
    (hread : env.read w.n_read = ReadResult.bytes buffer) (hlen : buffer ≠ [])
    (hclock : env.clock_gettime w.n_clock_gettime = ClockResult.ok t) :
    read_loop env fd (fuel + 1) w =
      read_loop env fd fuel
        { w with
          n_read := w.n_read + 1
          n_clock_gettime := w.n_clock_gettime + 1
          n_write := w.n_write + w.app.connections.length
          trace := w.trace ++ Event.read fd ::
            fanout_events env w.n_write
              (w.app.connections.map fun c => Event.writev c (message_frame fd t buffer)) } := by
  have hwf1 : ({ w with
      n_read := w.n_read + 1
      n_clock_gettime := w.n_clock_gettime + 1
      trace := w.trace ++ [Event.read fd] } : Sys).app.wf := hwf
  rw [read_loop_data env fd fuel w buffer t hread hlen hclock,
    broadcast_message_eq env _ _ hwf1]
  simp only [List.append_assoc, List.singleton_append]

theorem read_result_data (r : ReadResult) (h : r.len > 0) :
    ∃ buffer : List Char, r = ReadResult.bytes buffer ∧ buffer ≠ [] := by
  cases r with
  | bytes buffer =>
    refine ⟨buffer, rfl, ?_⟩
    intro hnil
    subst hnil
    simp [ReadResult.len] at h
  | fail errno => simp [ReadResult.len] at h

theorem read_loop_extends (env : Env) (fd : Int) :
    ∀ (fuel : Nat) (w : Sys), w.app.wf →
      (∀ (r : ReadResult) (w2 : Sys), read_loop env fd fuel w = some (Flow.next (r, w2)) →
        w2.app = w.app ∧ ∃ rest : List Event, w2.trace = w.trace ++ Event.read fd :: rest) ∧
      (∀ (code : Int) (w2 : Sys), read_loop env fd fuel w = some (Flow.ret code w2) →
        w2.app = w.app ∧ ∃ rest : List Event, w2.trace = w.trace ++ Event.read fd :: rest) := by
  intro fuel
  induction fuel with
  | zero =>
    intro w _
    constructor
    · intro r w2 h; simp [read_loop] at h
    · intro code w2 h; simp [read_loop] at h
  | succ f ih =>
    intro w hwf
    by_cases hpos : (env.read w.n_read).len > 0
    · obtain ⟨buffer, hr, hne⟩ := read_result_data _ hpos
      cases hc : env.clock_gettime w.n_clock_gettime with
      | ok t =>
        rw [read_loop_data_exact env fd f w buffer t hwf hr hne hc]
        obtain ⟨ihn, ihr⟩ := ih
          { w with
            n_read := w.n_read + 1
            n_clock_gettime := w.n_clock_gettime + 1
            n_write := w.n_write + w.app.connections.length
            trace := w.trace ++ Event.read fd ::
              fanout_events env w.n_write
                (w.app.connections.map fun c => Event.writev c (message_frame fd t buffer)) }
          hwf
        constructor
        · intro r w2 h
          obtain ⟨happ, rest, htrace⟩ := ihn r w2 h
          exact ⟨happ, _, by rw [htrace, List.append_assoc]; rfl⟩
        · intro code w2 h
          obtain ⟨happ, rest, htrace⟩ := ihr code w2 h
          exact ⟨happ, _, by rw [htrace, List.append_assoc]; rfl⟩
      | fail errno =>
        rw [read_loop_clock_fail env fd f w buffer errno hr hne hc]
        constructor
        · intro r w2 h; simp at h
        · intro code w2 h
          simp only [Option.some.injEq, Flow.ret.injEq] at h
          obtain ⟨_, h2⟩ := h
          subst h2
          exact ⟨rfl, [Event.stderr (LogLine.gettime_failed errno)], by simp⟩
    · rw [read_loop_stop env fd f w (by omega)]
      constructor
      · intro r w2 h
        simp only [Option.some.injEq, Flow.next.injEq, Prod.mk.injEq] at h
        obtain ⟨_, h2⟩ := h
        subst h2
        exact ⟨rfl, [], rfl⟩
      · intro code w2 h; simp at h

/-- C4, as stated, fails: a successful read of `n > 0` bytes is not always
followed by the writes.  When the `clock_gettime` that follows the read fails,
the loop returns 1 at once: after `read` has delivered the six bytes
`"hello\n"` from connection 5 of a table with three connections, nothing is
written to any of them. -/
theorem read_without_clock :
    (Sys.init demo_table).app.wf ∧
    (Sys.init demo_table).app.connections = [4, 5, 6] ∧
    Env.clockless.read (Sys.init demo_table).n_read = ReadResult.bytes "hello\n".toList ∧
    ∀ fuel : Nat,
      read_loop Env.clockless 5 (fuel + 1) (Sys.init demo_table)
        = some (Flow.ret 1
            { Sys.init demo_table with
              n_read := 1
              n_clock_gettime := 1
              trace := [Event.read 5, Event.stderr (LogLine.gettime_failed 22)] }) ∧
      writes_of [Event.read 5, Event.stderr (LogLine.gettime_failed 22)] = [] := by
  refine ⟨by decide, by decide, rfl, ?_⟩
  intro fuel
  refine ⟨?_, by decide⟩
  rw [read_loop_clock_fail Env.clockless 5 fuel (Sys.init demo_table) "hello\n".toList 22 rfl
    (by decide) rfl]
  rfl

/-- C4, amended: a successful read of `n > 0` bytes from `fd`, on a well-formed
table, after which `clock_gettime` succeeds (if it fails, the loop returns 1
with nothing written).  The round leaves exactly the state `w'`: the table
unchanged, whatever the writes return, and the trace extended by the `read` and
by `evs`, which holds exactly one `writev` to each connection of the table, in
table order (so also to the sender, and to connections appended by this
iteration's accept phase, which are in the table), and no `read`.  Every
`writev` carries the same frame, `"Message from socket <fd> at
<seconds>.<nanoseconds>: "`, the bytes read, and one `"\n"`.  The loop goes on
from `w'`: whatever way it ends, its trace continues behind `evs` with the next
`read`, and if that read returns `0` or fails the loop ends right there. -/
theorem read_broadcast_step (env : Env) (fd : Int) (w : Sys)
    (buffer : List Char) (t : timespec) (hwf : w.app.wf)
    (hread : env.read w.n_read = ReadResult.bytes buffer) (hlen : buffer ≠ [])
    (hclock : env.clock_gettime w.n_clock_gettime = ClockResult.ok t) :
    ∃ (evs : List Event) (w' : Sys),
      evs = fanout_events env w.n_write
          (w.app.connections.map fun c => Event.writev c (message_frame fd t buffer)) ∧
      w' = { w with
              n_read := w.n_read + 1
              n_clock_gettime := w.n_clock_gettime + 1
              n_write := w.n_write + w.app.connections.length
              trace := w.trace ++ Event.read fd :: evs } ∧
      (∀ fuel : Nat, read_loop env fd (fuel + 1) w = read_loop env fd fuel w') ∧
      (∀ fuel : Nat, (env.read (w.n_read + 1)).len ≤ 0 →
        read_loop env fd (fuel + 2) w
          = some (Flow.next (env.read (w.n_read + 1),
              { w' with n_read := w.n_read + 2, trace := w'.trace ++ [Event.read fd] }))) ∧
      (∀ (fuel : Nat) (r : ReadResult) (w2 : Sys),
        read_loop env fd fuel w = some (Flow.next (r, w2)) →
        w2.app = w.app ∧ ∃ rest : List Event, w2.trace = w'.trace ++ Event.read fd :: rest) ∧
      (∀ (fuel : Nat) (code : Int) (w2 : Sys),
        read_loop env fd fuel w = some (Flow.ret code w2) →
        w2.app = w.app ∧ ∃ rest : List Event, w2.trace = w'.trace ++ Event.read fd :: rest) ∧
      w'.app = w.app ∧
      reads_of evs = [] ∧
      writes_of evs
        = w.app.connections.map (fun c => Event.writev c (message_frame fd t buffer)) ∧
      (fd ∈ w.app.connections → Event.writev fd (message_frame fd t buffer) ∈ evs) ∧
      message_frame fd t buffer
        = "Message from socket ".toList ++ fmt_d fd ++ " at ".toList ++
            fmt_d (to_int t.tv_sec) ++ ['.'] ++ fmt_09d (to_int t.tv_nsec) ++ ": ".toList ++
            buffer ++ ['\n'] ∧
      (0 ≤ t.tv_sec → t.tv_sec < 2147483648 → t.normalized →
        to_int t.tv_sec = t.tv_sec ∧ to_int t.tv_nsec = t.tv_nsec) ∧
      message_frame 5 ⟨12, 5⟩ "hello\n".toList
        = "Message from socket 5 at 12.000000005: hello\n\n".toList := by
  have hstep := fun fuel => read_loop_data_exact env fd fuel w buffer t hwf hread hlen hclock
  have hext := fun (fuel : Nat) =>
    read_loop_extends env fd fuel
      { w with
        n_read := w.n_read + 1
        n_clock_gettime := w.n_clock_gettime + 1
        n_write := w.n_write + w.app.connections.length
        trace := w.trace ++ Event.read fd ::
          fanout_events env w.n_write
            (w.app.connections.map fun c => Event.writev c (message_frame fd t buffer)) }
      hwf
  refine ⟨_, _, rfl, rfl, hstep, ?_, ?_, ?_, rfl, ?_, ?_, ?_, ?_, ?_, ?_⟩
  · intro fuel hstop
    rw [hstep (fuel + 1), read_loop_stop env fd fuel _ hstop]
  · intro fuel r w2 h
    cases fuel with
    | zero => simp [read_loop] at h
    | succ f =>
      rw [hstep f] at h
      exact (hext f).1 r w2 h
  · intro fuel code w2 h
    cases fuel with
    | zero => simp [read_loop] at h
    | succ f =>
      rw [hstep f] at h
      exact (hext f).2 code w2 h
  · apply reads_of_fanout
    simp [reads_of]
  · exact writes_of_fanout env _ _ (writes_of_map_writev _ _)
  · intro hmem
    have hin : Event.writev fd (message_frame fd t buffer) ∈
        writes_of (fanout_events env w.n_write
          (w.app.connections.map fun c => Event.writev c (message_frame fd t buffer))) := by
      rw [writes_of_fanout env _ _ (writes_of_map_writev _ _)]
      exact List.mem_map.mpr ⟨fd, hmem, rfl⟩
    exact (List.mem_filter.mp hin).1
  · simp [message_frame, message_header]
  · intro h0 h1 hn
    unfold timespec.normalized at hn
    unfold to_int
    omega
  · decide

theorem read_broadcast_step_witness :
    (Sys.init demo_table).app.wf ∧
    Env.hello.read (Sys.init demo_table).n_read = ReadResult.bytes "hello\n".toList ∧
    "hello\n".toList ≠ [] ∧
    Env.hello.clock_gettime (Sys.init demo_table).n_clock_gettime = ClockResult.ok ⟨12, 5⟩ ∧
    read_loop Env.hello 5 2 (Sys.init demo_table)
      = some (Flow.next (ReadResult.fail EAGAIN,
          { Sys.init demo_table with
            n_read := 2
            n_clock_gettime := 1
            n_write := 3
            trace :=
              [Event.read 5,
               Event.writev 4 "Message from socket 5 at 12.000000005: hello\n\n".toList,
               Event.writev 5 "Message from socket 5 at 12.000000005: hello\n\n".toList,
               Event.writev 6 "Message from socket 5 at 12.000000005: hello\n\n".toList,
               Event.read 5] })) ∧
    ∃ (evs : List Event) (w' : Sys),
      evs = fanout_events Env.hello (Sys.init demo_table).n_write
          ((Sys.init demo_table).app.connections.map
            fun c => Event.writev c (message_frame 5 ⟨12, 5⟩ "hello\n".toList)) ∧
      w' = { Sys.init demo_table with
              n_read := (Sys.init demo_table).n_read + 1
              n_clock_gettime := (Sys.init demo_table).n_clock_gettime + 1
              n_write := (Sys.init demo_table).n_write
                + (Sys.init demo_table).app.connections.length
              trace := (Sys.init demo_table).trace ++ Event.read 5 :: evs } ∧
      (∀ fuel : Nat,
        read_loop Env.hello 5 (fuel + 1) (Sys.init demo_table) = read_loop Env.hello 5 fuel w') ∧
      (∀ fuel : Nat, (Env.hello.read ((Sys.init demo_table).n_read + 1)).len ≤ 0 →
        read_loop Env.hello 5 (fuel + 2) (Sys.init demo_table)
          = some (Flow.next (Env.hello.read ((Sys.init demo_table).n_read + 1),
              { w' with
                n_read := (Sys.init demo_table).n_read + 2
                trace := w'.trace ++ [Event.read 5] }))) ∧
      (∀ (fuel : Nat) (r : ReadResult) (w2 : Sys),
        read_loop Env.hello 5 fuel (Sys.init demo_table) = some (Flow.next (r, w2)) →
        w2.app = (Sys.init demo_table).app ∧
        ∃ rest : List Event, w2.trace = w'.trace ++ Event.read 5 :: rest) ∧
      (∀ (fuel : Nat) (code : Int) (w2 : Sys),
        read_loop Env.hello 5 fuel (Sys.init demo_table) = some (Flow.ret code w2) →
        w2.app = (Sys.init demo_table).app ∧
        ∃ rest : List Event, w2.trace = w'.trace ++ Event.read 5 :: rest) ∧
      w'.app = (Sys.init demo_table).app ∧
      reads_of evs = [] ∧
      writes_of evs
        = (Sys.init demo_table).app.connections.map
            (fun c => Event.writev c (message_frame 5 ⟨12, 5⟩ "hello\n".toList)) ∧
      (5 ∈ (Sys.init demo_table).app.connections →
        Event.writev 5 (message_frame 5 ⟨12, 5⟩ "hello\n".toList) ∈ evs) ∧
      message_frame 5 ⟨12, 5⟩ "hello\n".toList
        = "Message from socket ".toList ++ fmt_d 5 ++ " at ".toList ++
            fmt_d (to_int (⟨12, 5⟩ : timespec).tv_sec) ++ ['.'] ++
            fmt_09d (to_int (⟨12, 5⟩ : timespec).tv_nsec) ++ ": ".toList ++
            "hello\n".toList ++ ['\n'] ∧
      (0 ≤ (⟨12, 5⟩ : timespec).tv_sec → (⟨12, 5⟩ : timespec).tv_sec < 2147483648 →
        (⟨12, 5⟩ : timespec).normalized →
        to_int (⟨12, 5⟩ : timespec).tv_sec = (⟨12, 5⟩ : timespec).tv_sec ∧
        to_int (⟨12, 5⟩ : timespec).tv_nsec = (⟨12, 5⟩ : timespec).tv_nsec) ∧
      message_frame 5 ⟨12, 5⟩ "hello\n".toList
        = "Message from socket 5 at 12.000000005: hello\n\n".toList :=
  ⟨by decide, rfl, by decide, rfl, by decide,
    read_broadcast_step Env.hello 5 (Sys.init demo_table) "hello\n".toList ⟨12, 5⟩
      (by decide) rfl (by decide) rfl⟩

/-! ## Properties of the timer phase and of the tick numbering -/

theorem timer_phase_tick (env : Env) (fuel : Nat) (c : timespec) (st st' : LoopState)
    (m : Option (List Char)) (h : timer_phase env fuel c st = some (st', m)) :
    (m = none ∧ st'.tick_n = st.tick_n) ∨
      (m = some (tick_message st.tick_n) ∧ st'.tick_n = st.tick_n + 1) := by
  unfold timer_phase at h
  split_ifs at h with hgt
  · cases hc : catch_up fuel c st.messaging_time with
    | none => simp [hc] at h
    | some mt =>
      simp only [hc, Option.some.injEq, Prod.mk.injEq] at h
      obtain ⟨h1, h2⟩ := h
      subst h1
      exact Or.inr ⟨h2.symm, rfl⟩
  · simp only [Option.some.injEq, Prod.mk.injEq] at h
    obtain ⟨h1, h2⟩ := h
    subst h1
    exact Or.inl ⟨h2.symm, rfl⟩

theorem main_loop_iteration_tick (env : Env) (fuel : Nat) (st st' : LoopState)
    (m : Option (List Char))
    (h : main_loop_iteration env fuel st = some (Flow.next st', m)) :
    (m = none ∧ st'.tick_n = st.tick_n) ∨
      (m = some (tick_message st.tick_n) ∧ st'.tick_n = st.tick_n + 1) := by
  unfold main_loop_iteration at h
  simp only at h
  split at h
  · simp at h
  · split at h
    · simp at h
    · simp at h
    · split at h
      · simp at h
      · split at h
        · simp at h
        · rename_i st1 m1 htimer
          simp only [Option.some.injEq, Prod.mk.injEq, Flow.next.injEq] at h
          obtain ⟨h1, h2⟩ := h
          subst h1 h2
          have key := timer_phase_tick env fuel _ _ _ _ htimer
          exact key

theorem main_loop_rounds_ticks (env : Env) (fuel : Nat) :
    ∀ (rounds : Nat) (st : LoopState) (flow : Flow LoopState) (messages : List (List Char)),
      main_loop_rounds env fuel rounds st = some (flow, messages) →
      ∀ k : Nat, k < messages.length →
        messages[k]? = some (tick_message (st.tick_n + (k : Int))) := by
  intro rounds
  induction rounds with
  | zero =>
    intro st flow messages h k hk
    simp only [main_loop_rounds, Option.some.injEq, Prod.mk.injEq] at h
    rw [← h.2] at hk
    simp at hk
  | succ rounds ih =>
    intro st flow messages h k hk
    unfold main_loop_rounds at h
    split at h
    · simp at h
    · simp only [Option.some.injEq, Prod.mk.injEq] at h
      rw [← h.2] at hk
      simp at hk
    · rename_i st1 m1 hiter
      split at h
      · simp at h
      · rename_i flow1 messages1 hrest
        simp only [Option.some.injEq, Prod.mk.injEq] at h
        have ih1 := ih st1 flow1 messages1 hrest
        obtain ⟨_, hmsg⟩ := h
        subst hmsg
        rcases main_loop_iteration_tick env fuel st st1 m1 hiter with ⟨hm, ht⟩ | ⟨hm, ht⟩
        · subst hm
          rw [ht] at ih1
          simp only [Option.toList, List.nil_append] at hk ⊢
          exact ih1 k hk
        · subst hm
          rw [ht] at ih1
          simp only [Option.toList, List.singleton_append, List.length_cons] at hk ⊢
          cases k with
          | zero => simp
          | succ k =>
            rw [List.getElem?_cons_succ, ih1 k (by omega)]
            congr 2
            push_cast
            ring


theorem application_main_loop_ticks (env : Env) (fuel rounds : Nat) (w : Sys)
    (flow : Flow LoopState) (messages : List (List Char))
    (h : application_main_loop env fuel rounds w = some (flow, messages)) :
    ∀ k : Nat, k < messages.length → messages[k]? = some (tick_message ((k : Int) + 1)) := by
  intro k hk
  unfold application_main_loop at h
  simp only at h
  split at h
  · simp only [Option.some.injEq, Prod.mk.injEq] at h
    rw [← h.2] at hk
    simp at hk
  · have key := main_loop_rounds_ticks env fuel rounds _ flow messages h k hk
    rw [key]
    congr 2
    ring

theorem tick_message_nat (k : Nat) :
    tick_message ((k : Int) + 1) = "Tick ".toList ++ Nat.toDigits 10 (k + 1) ++ ['\n'] := by
  have hnn : ¬ ((k : Int) + 1 < 0) := by omega
  have habs : ((k : Int) + 1).natAbs = k + 1 := by omega
  simp only [tick_message, fmt_d, hnn, if_false, habs]

/-- C5: one timer phase on a well-formed table.  If the sampled time is past the
deadline, by whatever amount, the phase (for every sufficient budget of rounds)
writes exactly one message `"Tick <tick_n>\n"` to each connection of the table,
in table order, and `tick_n` grows by exactly one; if it is not past the
deadline, nothing is written and the state (`tick_n`, the deadline) is
unchanged.  Over a run of `application_main_loop`, where `tick_n` starts at 1,
the `k`-th firing carries the text `"Tick k\n"` for every `k >= 1`. -/
theorem tick_single_fire (env : Env) (c : timespec) (st : LoopState) (hwf : st.sys.app.wf) :
    (timespec_gt c st.messaging_time = true →
      ∀ fuel : Nat, (c.tv_sec - st.messaging_time.tv_sec).toNat + 2 ≤ fuel →
        ∃ (st' : LoopState) (evs : List Event),
          timer_phase env fuel c st = some (st', some (tick_message st.tick_n)) ∧
          st'.sys.trace = st.sys.trace ++ evs ∧
          writes_of evs
            = st.sys.app.connections.map (fun fd => Event.write fd (tick_message st.tick_n)) ∧
          st'.sys.app = st.sys.app ∧
          st'.tick_n = st.tick_n + 1 ∧
          tick_message st.tick_n = "Tick ".toList ++ fmt_d st.tick_n ++ ['\n']) ∧
    (timespec_gt c st.messaging_time = false →
      ∀ fuel : Nat, timer_phase env fuel c st = some (st, none)) ∧
    (∀ (fuel rounds : Nat) (w : Sys) (flow : Flow LoopState) (messages : List (List Char)),
      application_main_loop env fuel rounds w = some (flow, messages) →
      ∀ k : Nat, k < messages.length →
        messages[k]? = some (tick_message ((k : Int) + 1)) ∧
        tick_message ((k : Int) + 1) = "Tick ".toList ++ Nat.toDigits 10 (k + 1) ++ ['\n']) := by
  refine ⟨?_, ?_, ?_⟩
  · intro hgt fuel hfuel
    obtain ⟨k, _, hrun, _, _⟩ := timer_phase_fires env c st hgt
    refine ⟨_, fanout_events env st.sys.n_write
        (st.sys.app.connections.map fun fd => Event.write fd (tick_message st.tick_n)),
      hrun fuel hfuel, ?_, ?_, ?_, rfl, rfl⟩
    · show (broadcast_tick env (tick_message st.tick_n) st.sys).trace = _
      rw [broadcast_tick_eq env _ _ hwf]
    · exact writes_of_fanout env _ _ (writes_of_map_write _ _)
    · show (broadcast_tick env (tick_message st.tick_n) st.sys).app = _
      rw [broadcast_tick_eq env _ _ hwf]
  · intro hgt fuel
    exact timer_phase_idle env fuel c st hgt
  · intro fuel rounds w flow messages hrun k hk
    exact ⟨application_main_loop_ticks env fuel rounds w flow messages hrun k hk,
      tick_message_nat k⟩

theorem tick_single_fire_witness :
    demo_loop_state.sys.app.wf ∧
    (application_main_loop Env.ticking 20 3 (Sys.init demo_table)).map (fun r => r.2)
      = some ["Tick 1\n".toList, "Tick 2\n".toList, "Tick 3\n".toList] ∧
    (timespec_gt ⟨12, 0⟩ demo_loop_state.messaging_time = true →
      ∀ fuel : Nat,
        ((⟨12, 0⟩ : timespec).tv_sec - demo_loop_state.messaging_time.tv_sec).toNat + 2 ≤ fuel →
        ∃ (st' : LoopState) (evs : List Event),
          timer_phase Env.ticking fuel ⟨12, 0⟩ demo_loop_state
            = some (st', some (tick_message demo_loop_state.tick_n)) ∧
          st'.sys.trace = demo_loop_state.sys.trace ++ evs ∧
          writes_of evs
            = demo_loop_state.sys.app.connections.map
                (fun fd => Event.write fd (tick_message demo_loop_state.tick_n)) ∧
          st'.sys.app = demo_loop_state.sys.app ∧
          st'.tick_n = demo_loop_state.tick_n + 1 ∧
          tick_message demo_loop_state.tick_n
            = "Tick ".toList ++ fmt_d demo_loop_state.tick_n ++ ['\n']) ∧
    (timespec_gt ⟨12, 0⟩ demo_loop_state.messaging_time = false →
      ∀ fuel : Nat, timer_phase Env.ticking fuel ⟨12, 0⟩ demo_loop_state
        = some (demo_loop_state, none)) ∧
    (∀ (fuel rounds : Nat) (w : Sys) (flow : Flow LoopState) (messages : List (List Char)),
      application_main_loop Env.ticking fuel rounds w = some (flow, messages) →
      ∀ k : Nat, k < messages.length →
        messages[k]? = some (tick_message ((k : Int) + 1)) ∧
        tick_message ((k : Int) + 1) = "Tick ".toList ++ Nat.toDigits 10 (k + 1) ++ ['\n']) :=
  ⟨by decide, by decide, tick_single_fire Env.ticking ⟨12, 0⟩ demo_loop_state (by decide)⟩

/-! ## Properties of the accept and read phases -/

theorem answers_reads_cons (env : Env) (n : Nat) (r : ReadResult) (rs : List ReadResult)
    (h : env.answers_reads n (r :: rs)) : env.read n = r ∧ env.answers_reads (n + 1) rs := by
  constructor
  · have := h 0 (by simp)
    simpa using this.symm
  · intro k hk
    have := h (k + 1) (by simp; omega)
    rw [List.getElem?_cons_succ] at this
    rw [this]
    congr 2
    omega

theorem answers_reads_append (env : Env) (n : Nat) (a b : List ReadResult)
    (h : env.answers_reads n (a ++ b)) :
    env.answers_reads n a ∧ env.answers_reads (n + a.length) b := by
  constructor
  · intro k hk
    have := h k (by simp; omega)
    rw [List.getElem?_append_left hk] at this
    exact this
  · intro k hk
    have := h (a.length + k) (by simp; omega)
    rw [List.getElem?_append_right (by omega)] at this
    simp only [Nat.add_sub_cancel_left] at this
    rw [this]
    congr 2
    omega

theorem reads_of_append (a b : List Event) : reads_of (a ++ b) = reads_of a ++ reads_of b := by
  simp [reads_of]

theorem read_loop_data_step (env : Env) (fd : Int) (fuel : Nat) (w : Sys)
    (buffer : List Char) (t : timespec) (hwf : w.app.wf)
    (hread : env.read w.n_read = ReadResult.bytes buffer) (hlen : buffer ≠ [])
    (hclock : env.clock_gettime w.n_clock_gettime = ClockResult.ok t) :
    ∃ mid : Sys,
      read_loop env fd (fuel + 1) w = read_loop env fd fuel mid ∧
      mid.app = w.app ∧
      mid.n_read = w.n_read + 1 ∧
      reads_of mid.trace = reads_of w.trace ++ [fd] := by
  have hwf1 : ({ w with
      n_read := w.n_read + 1
      n_clock_gettime := w.n_clock_gettime + 1
      trace := w.trace ++ [Event.read fd] } : Sys).app.wf := hwf
  refine ⟨_, read_loop_data env fd fuel w buffer t hread hlen hclock, ?_, ?_, ?_⟩
  · rw [broadcast_message_eq env _ _ hwf1]
  · rw [broadcast_message_eq env _ _ hwf1]
  · rw [broadcast_message_eq env _ _ hwf1]
    simp only [reads_of_append]
    rw [reads_of_fanout env _ _ (by simp [reads_of])]
    simp [reads_of]

theorem read_loop_script (env : Env) (fd : Int) (last : ReadResult)
    (hlast : last.len ≤ 0) (hclock : ∀ n, ∃ t, env.clock_gettime n = ClockResult.ok t) :
    ∀ (chunks : List (List Char)) (w : Sys) (fuel : Nat), w.app.wf →
      (∀ chunk ∈ chunks, chunk ≠ []) →
      env.answers_reads w.n_read (chunks.map ReadResult.bytes ++ [last]) →
      chunks.length + 1 ≤ fuel →
      ∃ w2 : Sys,
        read_loop env fd fuel w = some (Flow.next (last, w2)) ∧
        w2.app = w.app ∧
        w2.n_read = w.n_read + (chunks.length + 1) ∧
        reads_of w2.trace = reads_of w.trace ++ List.replicate (chunks.length + 1) fd := by
  intro chunks
  induction chunks with
  | nil =>
    intro w fuel hwf _ hans hfuel
    obtain ⟨f, rfl⟩ : ∃ f, fuel = f + 1 := ⟨fuel - 1, by simp at hfuel; omega⟩
    have hr : env.read w.n_read = last := (answers_reads_cons env _ _ _ hans).1
    refine ⟨{ w with n_read := w.n_read + 1, trace := w.trace ++ [Event.read fd] },
      ?_, rfl, rfl, ?_⟩
    · rw [read_loop_stop env fd f w (by rw [hr]; exact hlast), hr]
    · show reads_of (w.trace ++ [Event.read fd]) = _
      rw [reads_of_append]
      rfl
  | cons chunk chunks ih =>
    intro w fuel hwf hne hans hfuel
    obtain ⟨f, rfl⟩ : ∃ f, fuel = f + 1 := ⟨fuel - 1, by simp at hfuel; omega⟩
    obtain ⟨hr, hans'⟩ := answers_reads_cons env _ _ _ hans
    obtain ⟨t, ht⟩ := hclock w.n_clock_gettime
    obtain ⟨mid, hstep, hmapp, hmn, hmreads⟩ :=
      read_loop_data_step env fd f w chunk t hwf hr (hne chunk (by simp)) ht
    have hfuel' : chunks.length + 1 ≤ f := by
      simp only [List.length_cons] at hfuel; omega
    obtain ⟨w2, hrun, happ, hn, hreads⟩ :=
      ih mid f (by rw [hmapp]; exact hwf) (fun c hc => hne c (by simp [hc]))
        (by rw [hmn]; exact hans') hfuel'
    refine ⟨w2, hstep.trans hrun, happ.trans hmapp, ?_, ?_⟩
    · rw [hn, hmn]
      simp only [List.length_cons]
      omega
    · rw [hreads, hmreads]
      simp only [List.length_cons, List.append_assoc, List.singleton_append]
      rfl

theorem connections_getElem? (s : application_t) (hwf : s.wf) (k : Nat)
    (hk : k < s.connection_count.toNat) :
    s.connections[k]? = some (s.connection_fds.getD k 0) := by
  obtain ⟨h0, h1, h2⟩ := hwf
  have hlen : k < s.connection_fds.length := by omega
  simp only [application_t.connections, List.getElem?_take, hk, if_true,
    List.getD_eq_getElem?_getD, List.getElem?_eq_getElem hlen, Option.getD_some]

theorem eraseIdx_middle (done tail : List Int) (fd : Int) :
    (done ++ fd :: tail).eraseIdx done.length = done ++ tail := by
  induction done with
  | nil => rfl
  | cons d done ih => simp [ih]

theorem read_phase_done (env : Env) (readfds : List Int) (fuel : Nat) (i cc : Int) (w : Sys)
    (h : ¬ i < cc) : read_phase env readfds (fuel + 1) i cc w = some (Flow.next w) := by
  simp only [read_phase, h, if_false]

theorem read_phase_skip (env : Env) (readfds : List Int) (fuel : Nat) (i cc : Int) (w : Sys)
    (h : i < cc) (hready : FD_ISSET (w.app.connection_fds.getD i.toNat 0) readfds = false) :
    read_phase env readfds (fuel + 1) i cc w = read_phase env readfds fuel (i + 1) cc w := by
  simp only [read_phase, h, if_true, hready, Bool.false_eq_true, if_false]

theorem read_phase_read (env : Env) (readfds : List Int) (fuel : Nat) (i cc : Int) (w : Sys)
    (h : i < cc) (hready : FD_ISSET (w.app.connection_fds.getD i.toNat 0) readfds = true)
    (r : ReadResult) (w2 : Sys)
    (hloop : read_loop env (w.app.connection_fds.getD i.toNat 0) fuel w
      = some (Flow.next (r, w2))) :
    read_phase env readfds (fuel + 1) i cc w =
      if r.len = 0 then
        read_phase env readfds fuel i (cc - 1) (application_remove_connection w2 i)
      else if r.errno ≠ EAGAIN ∧ r.errno ≠ EWOULDBLOCK then
        read_phase env readfds fuel i (cc - 1)
          (application_remove_connection
            { w2 with trace := w2.trace ++ [Event.stderr (LogLine.read_failed r.errno)] } i)
      else
        read_phase env readfds fuel (i + 1) cc w2 := by
  simp only [read_phase, h, if_true, hready, hloop]

theorem read_phase_spec (env : Env) (readfds : List Int)
    (hclock : ∀ n, ∃ t, env.clock_gettime n = ClockResult.ok t) :
    ∀ (todo : List Int) (scripts : List ReadScript) (done rest : List Int) (w : Sys)
      (fuel : Nat),
      w.app.wf →
      w.app.connections = done ++ todo ++ rest →
      scripts.length = (todo.filter fun fd => FD_ISSET fd readfds).length →
      (∀ script ∈ scripts, script.valid) →
      env.answers_reads w.n_read (script_answers scripts) →
      todo.length + (script_answers scripts).length + 1 ≤ fuel →
      ∃ w' : Sys,
        read_phase env readfds fuel (done.length : Int) ((done.length + todo.length : Nat) : Int) w
          = some (Flow.next w') ∧
        w'.app.wf ∧
        w'.app.connections = done ++ survivors readfds todo scripts ++ rest ∧
        reads_of w'.trace = reads_of w.trace ++ expected_reads readfds todo scripts := by
  intro todo
  induction todo with
  | nil =>
    intro scripts done rest w fuel hwf hconn _ _ _ hfuel
    obtain ⟨f, rfl⟩ : ∃ f, fuel = f + 1 := ⟨fuel - 1, by omega⟩
    refine ⟨w, ?_, hwf, ?_, ?_⟩
    · apply read_phase_done
      simp
    · simpa [survivors] using hconn
    · simp [expected_reads]
  | cons fd todo ih =>
    intro scripts done rest w fuel hwf hconn hlen hvalid hans hfuel
    obtain ⟨f, rfl⟩ : ∃ f, fuel = f + 1 := ⟨fuel - 1, by omega⟩
    have hcount : w.app.connection_count.toNat = (done ++ (fd :: todo) ++ rest).length := by
      rw [← hconn, length_connections _ hwf]
    simp only [List.length_append, List.length_cons] at hcount
    have hidx : ((done.length : Int)).toNat = done.length := by omega
    have hi0 : (0 : Int) ≤ (done.length : Int) := by omega
    have hilt : (done.length : Int) < w.app.connection_count := by
      have := hwf.1
      omega
    have hfd : w.app.connection_fds.getD ((done.length : Int)).toNat 0 = fd := by
      have h1 := connections_getElem? w.app hwf done.length (by omega)
      rw [hconn] at h1
      simp only [List.append_assoc, List.cons_append] at h1
      rw [List.getElem?_append_right (le_refl _)] at h1
      simp only [Nat.sub_self, List.getElem?_cons_zero, Option.some.injEq] at h1
      rw [hidx]
      exact h1.symm
    have hlt : (done.length : Int) < ((done.length + (fd :: todo).length : Nat) : Int) := by
      simp only [List.length_cons]
      omega
    have hnext : ((done ++ [fd]).length : Int) = (done.length : Int) + 1 := by
      simp
    have hcc : ((done ++ [fd]).length + todo.length : Nat)
        = (done.length + (fd :: todo).length : Nat) := by
      simp only [List.length_append, List.length_cons, List.length_nil]
      omega
    have hcc' : ((done.length + (fd :: todo).length : Nat) : Int) - 1
        = ((done.length + todo.length : Nat) : Int) := by
      simp only [List.length_cons]
      omega
    by_cases hready : FD_ISSET fd readfds = true
    · -- the connection is marked ready: its script is the first one
      have hfilter : (List.filter (fun fd => FD_ISSET fd readfds) (fd :: todo))
          = fd :: List.filter (fun fd => FD_ISSET fd readfds) todo := by
        rw [List.filter_cons, if_pos hready]
      rw [hfilter] at hlen
      cases scripts with
      | nil => simp at hlen
      | cons script scripts =>
        obtain ⟨chunks, last⟩ := script
        simp only [List.length_cons, add_left_inj] at hlen
        have hv : ReadScript.valid (chunks, last) := hvalid _ (by simp)
        have hans2 : env.answers_reads w.n_read
            ((chunks.map ReadResult.bytes ++ [last]) ++ script_answers scripts) := by
          simpa [script_answers] using hans
        obtain ⟨hansA, hansB⟩ := answers_reads_append env _ _ _ hans2
        have hlenA : (script_answers ((chunks, last) :: scripts)).length
            = chunks.length + 1 + (script_answers scripts).length := by
          simp [script_answers]
          omega
        rw [hlenA] at hfuel
        simp only [List.length_cons] at hfuel
        obtain ⟨w2, hloop, happ2, hn2, hreads2⟩ :=
          read_loop_script env fd last hv.2 hclock chunks w f hwf hv.1 hansA (by omega)
        have hstep := read_phase_read env readfds f (done.length : Int)
          ((done.length + (fd :: todo).length : Nat) : Int) w hlt (by rw [hfd]; exact hready)
          last w2 (by rw [hfd]; exact hloop)
        rw [hcc'] at hstep
        have hwf2 : w2.app.wf := by rw [happ2]; exact hwf
        have hremove : ∀ w3 : Sys, w3.app = w.app → w3.n_read = w2.n_read →
            reads_of w3.trace = reads_of w2.trace →
            ∃ w' : Sys,
              read_phase env readfds f (done.length : Int)
                  ((done.length + todo.length : Nat) : Int)
                  (application_remove_connection w3 (done.length : Int))
                = some (Flow.next w') ∧
              w'.app.wf ∧
              w'.app.connections = done ++ survivors readfds todo scripts ++ rest ∧
              reads_of w'.trace = reads_of w.trace ++
                (List.replicate (chunks.length + 1) fd ++
                  expected_reads readfds todo scripts) := by
          intro w3 happ3 hn3 hreads3
          have hwf3 : w3.app.wf := by rw [happ3]; exact hwf
          obtain ⟨hconn3, _, _, _, hwf4, _, htrace4⟩ :=
            remove_connection_table w3 (done.length : Int) hwf3 hi0 (by rw [happ3]; exact hilt)
          have hconn4 : (application_remove_connection w3 (done.length : Int)).app.connections
              = done ++ todo ++ rest := by
            rw [hconn3, happ3, hconn, hidx]
            simp only [List.append_assoc, List.cons_append]
            exact eraseIdx_middle done (todo ++ rest) fd
          obtain ⟨w', hrun, hwf', hconn', hreads'⟩ :=
            ih scripts done rest (application_remove_connection w3 (done.length : Int)) f
              hwf4 hconn4 hlen (fun sc hsc => hvalid sc (by simp [hsc]))
              (by
                have : (application_remove_connection w3 (done.length : Int)).n_read
                    = w.n_read + (chunks.map ReadResult.bytes ++ [last]).length := by
                  show w3.n_read = _
                  rw [hn3, hn2]
                  simp
                rw [this]
                exact hansB)
              (by omega)
          refine ⟨w', hrun, hwf', hconn', ?_⟩
          rw [hreads', htrace4, reads_of_append, hreads3, hreads2]
          simp [reads_of]
        by_cases hzero : last.len = 0
        · have hcl : ReadResult.closes last = true := by simp [ReadResult.closes, hzero]
          rw [if_pos hzero] at hstep
          obtain ⟨w', hrun, hwf', hconn', hreads'⟩ := hremove w2 happ2 rfl rfl
          refine ⟨w', hstep.trans hrun, hwf', ?_, ?_⟩
          · rw [hconn']
            simp [survivors, hready, hcl]
          · rw [hreads']
            simp [expected_reads, hready]
        · rw [if_neg hzero] at hstep
          by_cases herr : last.errno ≠ EAGAIN ∧ last.errno ≠ EWOULDBLOCK
          · have hcl : ReadResult.closes last = true := by
              simp [ReadResult.closes, herr.1, herr.2]
            rw [if_pos herr] at hstep
            obtain ⟨w', hrun, hwf', hconn', hreads'⟩ :=
              hremove
                { w2 with trace := w2.trace ++ [Event.stderr (LogLine.read_failed last.errno)] }
                happ2 rfl (by
                  show reads_of (w2.trace ++ _) = _
                  rw [reads_of_append]
                  simp [reads_of])
            refine ⟨w', hstep.trans hrun, hwf', ?_, ?_⟩
            · rw [hconn']
              simp [survivors, hready, hcl]
            · rw [hreads']
              simp [expected_reads, hready]
          · have hcl : ReadResult.closes last = false := by
              have : ¬ (last.errno ≠ EAGAIN ∧ last.errno ≠ EWOULDBLOCK) := herr
              simp only [ReadResult.closes, hzero, decide_False, Bool.false_or,
                Bool.and_eq_false_imp, decide_eq_true_eq, decide_eq_false_iff_not]
              intro h1 h2
              exact this ⟨h1, h2⟩
            rw [if_neg herr] at hstep
            obtain ⟨w', hrun, hwf', hconn', hreads'⟩ :=
              ih scripts (done ++ [fd]) rest w2 f hwf2
                (by rw [happ2, hconn]; simp)
                hlen (fun sc hsc => hvalid sc (by simp [hsc]))
                (by
                  have : w2.n_read
                      = w.n_read + (chunks.map ReadResult.bytes ++ [last]).length := by
                    rw [hn2]; simp
                  rw [this]
                  exact hansB)
                (by omega)
            rw [hcc, hnext] at hrun
            refine ⟨w', hstep.trans hrun, hwf', ?_, ?_⟩
            · rw [hconn']
              simp [survivors, hready, hcl]
            · rw [hreads', hreads2]
              simp [expected_reads, hready]
    · -- the connection is not marked ready: it is passed over
      have hready' : FD_ISSET fd readfds = false := by simpa using hready
      have hfilter : (List.filter (fun fd => FD_ISSET fd readfds) (fd :: todo))
          = List.filter (fun fd => FD_ISSET fd readfds) todo := by
        rw [List.filter_cons, if_neg hready]
      rw [hfilter] at hlen
      have hstep := read_phase_skip env readfds f (done.length : Int)
        ((done.length + (fd :: todo).length : Nat) : Int) w hlt (by rw [hfd]; exact hready')
      simp only [List.length_cons] at hfuel
      obtain ⟨w', hrun, hwf', hconn', hreads'⟩ :=
        ih scripts (done ++ [fd]) rest w f hwf (by rw [hconn]; simp) hlen hvalid hans
          (by omega)
      rw [hcc, hnext] at hrun
      refine ⟨w', hstep.trans hrun, hwf', ?_, ?_⟩
      · rw [hconn']
        simp [survivors, hready']
      · rw [hreads']
        simp [expected_reads, hready']

theorem add_connection_frame (env : Env) (w : Sys) (fd : Int) (hwf : w.app.wf) :
    ∃ added : List Int,
      (application_add_connection env w fd).app.connections = w.app.connections ++ added ∧
      (application_add_connection env w fd).app.wf ∧
      (application_add_connection env w fd).n_accept = w.n_accept ∧
      (application_add_connection env w fd).n_read = w.n_read ∧
      reads_of (application_add_connection env w fd).trace = reads_of w.trace := by
  by_cases hfull : w.app.connection_count = w.app.max_connections
  · rw [add_connection_full env w fd hfull]
    refine ⟨[], by simp, hwf, rfl, rfl, ?_⟩
    show reads_of (w.trace ++ _) = _
    rw [reads_of_append]
    simp [reads_of]
  · by_cases hret : (env.fcntl w.n_fcntl).ret = -1
    · rw [add_connection_nonblock_failed env w fd hfull hret]
      refine ⟨[], by simp, hwf, rfl, rfl, ?_⟩
      show reads_of (w.trace ++ _) = _
      rw [reads_of_append]
      simp [reads_of]
    · obtain ⟨hconn, _, _, _, hwf', htrace⟩ :=
        add_connection_accepted env w fd hwf hfull hret
      refine ⟨[fd], hconn, hwf', ?_, ?_, by rw [htrace]⟩
      · rw [add_connection_appended env w fd hfull hret]
      · rw [add_connection_appended env w fd hfull hret]

theorem accept_phase_spec (env : Env) :
    ∀ (m : Nat) (w : Sys) (fuel : Nat), w.app.wf →
      (∀ j : Nat, j < m → (env.accept (w.n_accept + j)).ret ≥ 0) →
      (env.accept (w.n_accept + m)).ret < 0 →
      ((env.accept (w.n_accept + m)).errno = EAGAIN ∨
        (env.accept (w.n_accept + m)).errno = EWOULDBLOCK) →
      m + 1 ≤ fuel →
      ∃ (w1 : Sys) (added : List Int),
        accept_phase env fuel w = some (Flow.next w1) ∧
        w1.app.wf ∧
        w1.app.connections = w.app.connections ++ added ∧
        w1.n_read = w.n_read ∧
        reads_of w1.trace = reads_of w.trace := by
  intro m
  induction m with
  | zero =>
    intro w fuel hwf _ hneg herrno hfuel
    obtain ⟨f, rfl⟩ : ∃ f, fuel = f + 1 := ⟨fuel - 1, by omega⟩
    simp only [Nat.add_zero] at hneg herrno
    have h1 : ¬ (env.accept w.n_accept).ret ≥ 0 := by omega
    have h2 : ¬ ((env.accept w.n_accept).errno ≠ EAGAIN ∧
        (env.accept w.n_accept).errno ≠ EWOULDBLOCK) := by
      rcases herrno with h | h
      · exact fun hh => hh.1 h
      · exact fun hh => hh.2 h
    refine ⟨{ w with n_accept := w.n_accept + 1 }, [], ?_, hwf, by simp, rfl, rfl⟩
    simp only [accept_phase, h1, if_false, h2]
  | succ m ih =>
    intro w fuel hwf hpos hneg herrno hfuel
    obtain ⟨f, rfl⟩ : ∃ f, fuel = f + 1 := ⟨fuel - 1, by omega⟩
    have h1 : (env.accept w.n_accept).ret ≥ 0 := by
      have := hpos 0 (by omega)
      simpa using this
    have hwf0 : ({ w with
        n_accept := w.n_accept + 1
        trace := w.trace ++ [Event.stderr (LogLine.incoming (env.accept w.n_accept).ip
          (env.accept w.n_accept).port)] } : Sys).app.wf := hwf
    obtain ⟨added0, hconn0, hwf1, hacc1, hread1, hreads1⟩ :=
      add_connection_frame env _ (env.accept w.n_accept).ret hwf0
    have hshift : ∀ j : Nat, w.n_accept + 1 + j = w.n_accept + (j + 1) := by
      intro j; omega
    obtain ⟨w1, added, hrun, hwf2, hconn2, hread2, hreads2⟩ :=
      ih _ f hwf1
        (by
          intro j hj
          rw [hacc1]
          show (env.accept (w.n_accept + 1 + j)).ret ≥ 0
          rw [hshift]
          exact hpos (j + 1) (by omega))
        (by
          rw [hacc1]
          show (env.accept (w.n_accept + 1 + m)).ret < 0
          rw [hshift]
          exact hneg)
        (by
          rw [hacc1]
          show (env.accept (w.n_accept + 1 + m)).errno = EAGAIN ∨
            (env.accept (w.n_accept + 1 + m)).errno = EWOULDBLOCK
          rw [hshift]
          exact herrno)
        (by omega)
    refine ⟨w1, added0 ++ added, ?_, hwf2, ?_, ?_, ?_⟩
    · simp only [accept_phase, h1, if_true]
      exact hrun
    · rw [hconn2, hconn0, List.append_assoc]
    · rw [hread2, hread1]
    · rw [hreads2, hreads1]
      show reads_of (w.trace ++ _) = _
      rw [reads_of_append]
      simp [reads_of]

theorem survivors_sublist (readfds : List Int) :
    ∀ (snapshot : List Int) (scripts : List ReadScript),
      (survivors readfds snapshot scripts).Sublist snapshot := by
  intro snapshot
  induction snapshot with
  | nil => intro scripts; simp [survivors]
  | cons fd snapshot ih =>
    intro scripts
    unfold survivors
    split_ifs with hready
    · cases scripts with
      | nil => exact (ih []).cons₂ fd
      | cons script scripts =>
        simp only
        split_ifs
        · exact (ih scripts).cons fd
        · exact (ih scripts).cons₂ fd
    · exact (ih scripts).cons₂ fd

theorem survivors_not_ready (readfds : List Int) :
    ∀ (snapshot : List Int) (scripts : List ReadScript) (fd : Int), fd ∈ snapshot →
      FD_ISSET fd readfds = false → fd ∈ survivors readfds snapshot scripts := by
  intro snapshot
  induction snapshot with
  | nil => intro scripts fd h; simp at h
  | cons x snapshot ih =>
    intro scripts fd hmem hnot
    rw [List.mem_cons] at hmem
    unfold survivors
    split_ifs with hready
    · have hne : fd ≠ x := by
        intro h; subst h; rw [hnot] at hready; exact absurd hready (by decide)
      have hin : fd ∈ snapshot := by
        rcases hmem with h | h
        · exact absurd h hne
        · exact h
      cases scripts with
      | nil => exact List.mem_cons_of_mem _ (ih [] fd hin hnot)
      | cons script scripts =>
        simp only
        split_ifs
        · exact ih scripts fd hin hnot
        · exact List.mem_cons_of_mem _ (ih scripts fd hin hnot)
    · rcases hmem with h | h
      · rw [h]; exact List.mem_cons_self _ _
      · exact List.mem_cons_of_mem _ (ih scripts fd h hnot)

theorem read_phase_from_start (env : Env) (readfds : List Int)
    (hclock : ∀ n, ∃ t, env.clock_gettime n = ClockResult.ok t)
    (w w1 : Sys) (added : List Int) (hwf : w.app.wf) (hwf1 : w1.app.wf)
    (hconn : w1.app.connections = w.app.connections ++ added) (hread : w1.n_read = w.n_read)
    (scripts : List ReadScript)
    (hlen : scripts.length = (w.app.connections.filter fun fd => FD_ISSET fd readfds).length)
    (hvalid : ∀ script ∈ scripts, script.valid)
    (hans : env.answers_reads w.n_read (script_answers scripts))
    (fuel : Nat) (hfuel : w.app.connections.length + (script_answers scripts).length + 1 ≤ fuel) :
    ∃ w' : Sys,
      read_phase env readfds fuel 0 w.app.connection_count w1 = some (Flow.next w') ∧
      w'.app.wf ∧
      w'.app.connections = survivors readfds w.app.connections scripts ++ added ∧
      reads_of w'.trace
        = reads_of w1.trace ++ expected_reads readfds w.app.connections scripts := by
  obtain ⟨w', hrun, hwf', hconn', hreads'⟩ :=
    read_phase_spec env readfds hclock w.app.connections scripts [] added w1 fuel hwf1
      (by rw [hconn]; rfl) hlen hvalid (by rw [hread]; exact hans) hfuel
  have hcast : (((([] : List Int).length + w.app.connections.length : Nat)) : Int)
      = w.app.connection_count := by
    rw [length_connections _ hwf]
    have := hwf.1
    simp only [List.length_nil]
    omega
  rw [hcast] at hrun
  exact ⟨w', hrun, hwf', by simpa using hconn', hreads'⟩

/-- C8, as stated, fails: the read phase need not terminate.  With a peer that
never stops sending (every `read` on the ready descriptor 4 yields a byte, no
call fails) the branch taken when `pselect` reports events, and with it the
whole iteration, returns for no budget of rounds. -/
theorem read_phase_flooded :
    (Sys.init demo_table).app.wf ∧
    (∀ n, ∃ t, Env.flood.clock_gettime n = ClockResult.ok t) ∧
    (Env.flood.pselect 0).ret > 0 ∧
    (∀ fuel : Nat,
      events_phase Env.flood (Env.flood.pselect 0).readfds fuel (Sys.init demo_table) = none) ∧
    (∀ fuel : Nat, main_loop_iteration Env.flood fuel demo_loop_state = none) := by
  have hloop : ∀ (fuel : Nat) (w : Sys), w.app.wf → read_loop Env.flood 4 fuel w = none := by
    intro fuel
    induction fuel with
    | zero => intro w _; rfl
    | succ f ih =>
      intro w hwf
      obtain ⟨mid, hstep, happ, _, _⟩ :=
        read_loop_data_step Env.flood 4 f w ['x'] ⟨0, 0⟩ hwf rfl (by decide) rfl
      rw [hstep]
      exact ih mid (by rw [happ]; exact hwf)
  have hphase : ∀ (fuel : Nat) (w : Sys), w.app = demo_table →
      read_phase Env.flood [4] fuel 0 3 w = none := by
    intro fuel w happ
    cases fuel with
    | zero => rfl
    | succ f =>
      have hwf : w.app.wf := by rw [happ]; decide
      have hfd : w.app.connection_fds.getD (0 : Int).toNat 0 = 4 := by rw [happ]; rfl
      simp only [read_phase, hfd, hloop f w hwf]
      rfl
  refine ⟨by decide, fun n => ⟨_, rfl⟩, by decide, ?_, ?_⟩
  · intro fuel
    exact hphase fuel _ rfl
  · intro fuel
    have h := hphase fuel
      { Sys.init demo_table with
        n_clock_gettime := 1
        n_pselect := 1
        trace := [Event.pselect 7 [3, 4, 5, 6] ⟨0, 0⟩] } rfl
    unfold main_loop_iteration
    simp only [events_phase]
    rw [show Env.flood.clock_gettime demo_loop_state.sys.n_clock_gettime
      = ClockResult.ok ⟨0, 0⟩ from rfl]
    simp only
    rw [show Env.flood.pselect demo_loop_state.sys.n_pselect
      = { ret := 1, readfds := [4], errno := 0 } from rfl]
    simp only [gt_iff_lt, zero_lt_one, if_true]
    rw [show FD_ISSET demo_loop_state.sys.app.listener_fd [4] = false from rfl]
    simp only [Bool.false_eq_true, if_false]
    have h' : read_phase Env.flood [4] fuel 0 demo_loop_state.sys.app.connection_count
        { app := demo_loop_state.sys.app,
          trace := demo_loop_state.sys.trace ++
            [Event.pselect (top_fd demo_loop_state.sys.app + 1)
              (demo_loop_state.sys.app.listener_fd :: demo_loop_state.sys.app.connections)
              (timespec_sub demo_loop_state.messaging_time ⟨0, 0⟩)],
          n_clock_gettime := demo_loop_state.sys.n_clock_gettime + 1,
          n_pselect := demo_loop_state.sys.n_pselect + 1,
          n_accept := demo_loop_state.sys.n_accept,
          n_fcntl := demo_loop_state.sys.n_fcntl,
          n_read := demo_loop_state.sys.n_read,
          n_write := demo_loop_state.sys.n_write } = none := h
    rw [h']

/-- C8, amended: take an iteration in which `pselect` reports events, on a
well-formed table, and suppose that no call fails fatally, that the accept loop
ends (after `m` accepted descriptors `accept` would block), and that the read
sequence of every ready snapshot connection ends (with a 0-byte read or a
failure), as described by `scripts`.  Then, for every sufficient budget of
rounds, the accept phase appends `added` to the table and the read phase
returns; it reads exactly from the connections that were in the table before
the accept phase and are marked ready, each in one run of reads and in table
order, and from none of those appended by the accept phase; the table
afterwards is the table after the accept phase without the snapshot connections
whose read sequence ended with a 0-byte read or an error other than would-block,
all others (would-block, not ready, newly accepted) staying in their order. -/
theorem read_phase_over_snapshot (env : Env) (readfds : List Int) (w : Sys) (hwf : w.app.wf)
    (m : Nat)
    (hacc : FD_ISSET w.app.listener_fd readfds = true →
      (∀ j : Nat, j < m → (env.accept (w.n_accept + j)).ret ≥ 0) ∧
      (env.accept (w.n_accept + m)).ret < 0 ∧
      ((env.accept (w.n_accept + m)).errno = EAGAIN ∨
        (env.accept (w.n_accept + m)).errno = EWOULDBLOCK))
    (hclock : ∀ n, ∃ t, env.clock_gettime n = ClockResult.ok t)
    (scripts : List ReadScript)
    (hlen : scripts.length = (w.app.connections.filter fun fd => FD_ISSET fd readfds).length)
    (hvalid : ∀ script ∈ scripts, script.valid)
    (hans : env.answers_reads w.n_read (script_answers scripts))
    (fuel : Nat)
    (hfuel : m + w.app.connections.length + (script_answers scripts).length + 2 ≤ fuel) :
    ∃ (w1 w' : Sys) (added : List Int),
      (if FD_ISSET w.app.listener_fd readfds = true then
          accept_phase env fuel w = some (Flow.next w1)
        else w1 = w) ∧
      w1.app.connections = w.app.connections ++ added ∧
      events_phase env readfds fuel w = some (Flow.next w') ∧
      reads_of w'.trace
        = reads_of w.trace ++ expected_reads readfds w.app.connections scripts ∧
      w'.app.connections = survivors readfds w.app.connections scripts ++ added ∧
      (survivors readfds w.app.connections scripts).Sublist w.app.connections ∧
      (∀ fd ∈ w.app.connections, FD_ISSET fd readfds = false →
        fd ∈ survivors readfds w.app.connections scripts) ∧
      w'.app.wf := by
  by_cases hl : FD_ISSET w.app.listener_fd readfds = true
  · obtain ⟨hpos, hneg, herrno⟩ := hacc hl
    obtain ⟨w1, added, hrun1, hwf1, hconn1, hread1, hreads1⟩ :=
      accept_phase_spec env m w fuel hwf hpos hneg herrno (by omega)
    obtain ⟨w', hrun, hwf', hconn', hreads'⟩ :=
      read_phase_from_start env readfds hclock w w1 added hwf hwf1 hconn1 hread1 scripts hlen
        hvalid hans fuel (by omega)
    refine ⟨w1, w', added, by rw [if_pos hl]; exact hrun1, hconn1, ?_, ?_, hconn',
      survivors_sublist _ _ _, fun fd hfd hnot => survivors_not_ready _ _ _ fd hfd hnot, hwf'⟩
    · simp only [events_phase, hl, if_true, hrun1]
      exact hrun
    · rw [hreads', hreads1]
  · obtain ⟨w', hrun, hwf', hconn', hreads'⟩ :=
      read_phase_from_start env readfds hclock w w [] hwf hwf (by simp) rfl scripts hlen
        hvalid hans fuel (by omega)
    refine ⟨w, w', [], by rw [if_neg hl], by simp, ?_, hreads', hconn',
      survivors_sublist _ _ _, fun fd hfd hnot => survivors_not_ready _ _ _ fd hfd hnot, hwf'⟩
    simp only [events_phase, hl, if_false]
    exact hrun

theorem read_phase_over_snapshot_witness :
    (Sys.init demo_table).app.wf ∧
    (events_phase Env.busy [3, 4, 6] 9 (Sys.init demo_table)).map
        (fun flow => match flow with
          | Flow.next w' => (w'.app.connections, reads_of w'.trace)
          | Flow.ret _ _ => ([], []))
      = some ([4, 5, 7], [4, 4, 6]) ∧
    ∃ (w1 w' : Sys) (added : List Int),
      (if FD_ISSET (Sys.init demo_table).app.listener_fd [3, 4, 6] = true then
          accept_phase Env.busy 9 (Sys.init demo_table) = some (Flow.next w1)
        else w1 = Sys.init demo_table) ∧
      w1.app.connections = (Sys.init demo_table).app.connections ++ added ∧
      events_phase Env.busy [3, 4, 6] 9 (Sys.init demo_table) = some (Flow.next w') ∧
      reads_of w'.trace
        = reads_of (Sys.init demo_table).trace ++
            expected_reads [3, 4, 6] (Sys.init demo_table).app.connections
              [(["hi".toList], ReadResult.fail EAGAIN), ([], ReadResult.bytes [])] ∧
      w'.app.connections
        = survivors [3, 4, 6] (Sys.init demo_table).app.connections
            [(["hi".toList], ReadResult.fail EAGAIN), ([], ReadResult.bytes [])] ++ added ∧
      (survivors [3, 4, 6] (Sys.init demo_table).app.connections
          [(["hi".toList], ReadResult.fail EAGAIN), ([], ReadResult.bytes [])]).Sublist
        (Sys.init demo_table).app.connections ∧
      (∀ fd ∈ (Sys.init demo_table).app.connections, FD_ISSET fd [3, 4, 6] = false →
        fd ∈ survivors [3, 4, 6] (Sys.init demo_table).app.connections
          [(["hi".toList], ReadResult.fail EAGAIN), ([], ReadResult.bytes [])]) ∧
      w'.app.wf :=
  ⟨by decide, by decide,
    read_phase_over_snapshot Env.busy [3, 4, 6] (Sys.init demo_table) (by decide) 1
      (by decide) (fun n => ⟨_, rfl⟩)
      [(["hi".toList], ReadResult.fail EAGAIN), ([], ReadResult.bytes [])]
      (by decide) (by decide) (by decide) 9 (by decide)⟩

end AsyncServer
